import Mathlib

/-!
Mesh badge board logic (`reel_board.c`)

A shallow embedding of the peer statistics table, the top sender ranking,
the line measuring routine and the button / screen handling of
`samples/boards/reel_board/mesh_badge/src/reel_board.c`, followed by the
properties established about them.

Conventions: C strings are lists of byte values (`List Nat`); reading past
the end of the list yields the terminator `0`.  Unsigned machine integers are
natural numbers, reduced modulo `2 ^ w` where the C code performs arithmetic
on them.
-/

namespace MeshBadge

/-! ## Peer statistics table -/

/-- The `#define STAT_COUNT 128`. -/
def STAT_COUNT : Nat := 128

/-- The `#define NO_UPDATE -1`. -/
def NO_UPDATE : Int := -1

/-- The `struct stat`: one slot of the peer table. -/
structure Stat where
  addr : Nat
  name : List Nat
  min_hops : Nat
  max_hops : Nat
  hello_count : Nat
  heartbeat_count : Nat
deriving DecidableEq, Repr, Inhabited

/-- The file-scope state of the statistics module: the array `stats` and the
counter `stat_count` (a `u32_t`). -/
structure Table where
  stats : List Stat
  stat_count : Nat
deriving DecidableEq, Repr

/-- The initialiser of one slot: everything zero except
`.min_hops = BT_MESH_TTL_MAX` (`ttl_max` stands for that constant, which is
declared in a header of the mesh stack). -/
def stat_init (ttl_max : Nat) : Stat :=
  { addr := 0, name := List.replicate 9 0, min_hops := ttl_max, max_hops := 0,
    hello_count := 0, heartbeat_count := 0 }

/-- The table at program start: `STAT_COUNT` initialised slots and
`stat_count = 0`. -/
def table_init (ttl_max : Nat) : Table :=
  { stats := List.replicate STAT_COUNT (stat_init ttl_max), stat_count := 0 }

/-- The C string held by a buffer: the bytes before the first terminator. -/
def cstr (src : List Nat) : List Nat := src.takeWhile (fun c => c != 0)

/-- The libc `strncpy(dst, src, n)`: the first `n` bytes of `dst` become the
first `n` bytes of the string `src`, padded with terminators when `src` is
shorter; the bytes of `dst` from `n` on are untouched. -/
def strncpy (dst src : List Nat) (n : Nat) : List Nat :=
  (cstr src).take n ++ List.replicate (n - (cstr src).length) 0 ++ dst.drop n

/-- The loop of `add_hello`, entered at slot index `i` with the slots from
`i` on; returns the new slots, the new `stat_count` and the return value. -/
def add_hello_loop (addr : Nat) (name : List Nat) :
    Nat → Nat → List Stat → List Stat × Nat × Int
  | _, stat_count, [] => ([], stat_count, NO_UPDATE)
  | i, stat_count, stat :: rest =>
    if stat.addr = 0 then
      ({ stat with addr := addr, name := strncpy stat.name name 8, hello_count := 1 } :: rest,
        (stat_count + 1) % 2 ^ 32, (i : Int))
    else if stat.addr = addr then
      if stat.hello_count < 0xffff then
        ({ stat with name := strncpy stat.name name 8,
                     hello_count := (stat.hello_count + 1) % 2 ^ 16 } :: rest,
          stat_count, (i : Int))
      else
        ({ stat with name := strncpy stat.name name 8 } :: rest, stat_count, NO_UPDATE)
    else
      let r := add_hello_loop addr name (i + 1) stat_count rest
      (stat :: r.1, r.2.1, r.2.2)

/-- The function `add_hello(addr, name)`: new table and return value. -/
def add_hello (addr : Nat) (name : List Nat) (t : Table) : Table × Int :=
  let r := add_hello_loop addr name 0 t.stat_count t.stats
  ({ stats := r.1, stat_count := r.2.1 }, r.2.2)

/-- The loop of `add_heartbeat`, entered at slot index `i`. -/
def add_heartbeat_loop (addr hops : Nat) :
    Nat → Nat → List Stat → List Stat × Nat × Int
  | _, stat_count, [] => ([], stat_count, NO_UPDATE)
  | i, stat_count, stat :: rest =>
    if stat.addr = 0 then
      ({ stat with addr := addr, heartbeat_count := 1, min_hops := hops, max_hops := hops }
          :: rest,
        (stat_count + 1) % 2 ^ 32, (i : Int))
    else if stat.addr = addr then
      let stat1 : Stat :=
        if hops < stat.min_hops then { stat with min_hops := hops }
        else if hops > stat.max_hops then { stat with max_hops := hops }
        else stat
      if stat1.heartbeat_count < 0xffff then
        ({ stat1 with heartbeat_count := (stat1.heartbeat_count + 1) % 2 ^ 16 } :: rest,
          stat_count, (i : Int))
      else
        (stat1 :: rest, stat_count, NO_UPDATE)
    else
      let r := add_heartbeat_loop addr hops (i + 1) stat_count rest
      (stat :: r.1, r.2.1, r.2.2)

/-- The function `add_heartbeat(addr, hops)`: new table and return value. -/
def add_heartbeat (addr hops : Nat) (t : Table) : Table × Int :=
  let r := add_heartbeat_loop addr hops 0 t.stat_count t.stats
  ({ stats := r.1, stat_count := r.2.1 }, r.2.2)

/-- One call into the statistics module. -/
inductive Event where
  | hello (addr : Nat) (name : List Nat)
  | heartbeat (addr : Nat) (hops : Nat)
deriving DecidableEq, Repr

/-- The peer address an event is about. -/
def Event.addr : Event → Nat
  | .hello a _ => a
  | .heartbeat a _ => a

/-- The table after one call (`board_add_hello` / `board_add_heartbeat`
discard the return value). -/
def step (t : Table) : Event → Table
  | .hello a n => (add_hello a n t).1
  | .heartbeat a h => (add_heartbeat a h t).1

/-- The table after a sequence of calls, oldest first. -/
def run (t : Table) (evs : List Event) : Table := evs.foldl step t

/-! ## Top sender ranking (`show_statistics`) -/

/-- The call `memmove(&a[dst], &a[src], n * sizeof(a[0]))` inside one array of
`int`: `n` cells are copied as if through a temporary buffer. -/
def memmove (a : List Int) (dst src n : Nat) : List Int :=
  (List.range n).foldl (fun acc k => acc.set (dst + k) (a.getD (src + k) 0)) a

/-- The inner loop `for (j = 0; j < ARRAY_SIZE(top); j++)` of
`show_statistics` for slot `i` holding `stat`, entered at `j` with `fuel`
iterations left. -/
def top_insert (stats : List Stat) (stat : Stat) (i : Nat) :
    Nat → Nat → List Int → List Int
  | 0, _, top => top
  | fuel + 1, j, top =>
    if top.getD j 0 < 0 then
      top.set j (i : Int)
    else if stat.hello_count ≤ (stats.getD (top.getD j 0).toNat default).hello_count then
      top_insert stats stat i fuel (j + 1) top
    else
      let top1 :=
        if j < top.length - 1 then memmove top (j + 1) j (top.length - j - 1) else top
      top1.set j (i : Int)

/-- The loop "Find the top sender" of `show_statistics`, entered at slot
index `i` with the slots from `i` on. -/
def rank_loop (stats : List Stat) : Nat → List Stat → List Int → List Int
  | _, [], top => top
  | i, stat :: rest, top =>
    if stat.addr = 0 then top
    else if stat.hello_count = 0 then rank_loop stats (i + 1) rest top
    else rank_loop stats (i + 1) rest (top_insert stats stat i top.length 0 top)

/-- The array `top` of `show_statistics` when its ranking loop has finished. -/
def show_statistics_top (t : Table) : List Int :=
  rank_loop t.stats 0 t.stats [-1, -1, -1, -1]

/-- The `hello_count` of slot `i`. -/
def hello_at (t : Table) (i : Nat) : Nat := (t.stats.getD i default).hello_count

/-- Specification side of the ranking: the slot indices of the occupied
peers with `hello_count > 0`, in slot order. -/
def ranked_candidates (t : Table) : List Nat :=
  ((List.enumFrom 0 t.stats).filter
    (fun p => decide (p.2.addr ≠ 0) && decide (0 < p.2.hello_count))).map Prod.fst

/-- Specification side of the ranking: slot `i` ranks no later than slot `j`
when its `hello_count` is larger, or equal with `i` the earlier slot. -/
def rank_le (t : Table) (i j : Nat) : Prop :=
  hello_at t j < hello_at t i ∨ (hello_at t i = hello_at t j ∧ i ≤ j)

instance (t : Table) : DecidableRel (rank_le t) := fun i j => by
  unfold rank_le; exact inferInstance

/-- Specification side of the ranking: the candidates sorted by `hello_count`
descending, ties in increasing slot order. -/
def ranked_slots (t : Table) : List Nat :=
  (ranked_candidates t).insertionSort (rank_le t)

/-- Specification side of the ranking: the first four ranked slots, padded
with `-1` when fewer exist. -/
def top4_spec (t : Table) : List Int :=
  ((ranked_slots t).take 4).map Int.ofNat ++ List.replicate (4 - (ranked_slots t).length) (-1)

/-- A table whose slots `0..5` are occupied with hello counts
`[5, 3, 3, 8, 0, 1]`, the other slots being empty. -/
def ranking_example : Table :=
  { stats :=
      [5, 3, 3, 8, 0, 1].enum.map
          (fun p => { stat_init 127 with addr := p.1 + 1, hello_count := p.2,
                                         heartbeat_count := 1 })
        ++ List.replicate (STAT_COUNT - 6) (stat_init 127),
    stat_count := 6 }

/-! ## Line measuring (`get_len`) -/

/-- The `enum font_size`. -/
inductive font_size where
  | FONT_BIG
  | FONT_MEDIUM
  | FONT_SMALL
deriving DecidableEq, Repr

/-- The field `fonts[font].columns`. -/
def fonts_columns : font_size → Nat
  | .FONT_BIG => 12
  | .FONT_MEDIUM => 16
  | .FONT_SMALL => 25

/-- The loop of `get_len` for a column limit `cols`, entered at index `i`
with `fuel` iterations left; `space` is the index of the last space seen
(`none` for the `NULL` pointer).  The value is what `get_len` returns. -/
def get_len_loop (cols : Nat) (text : List Nat) : Nat → Nat → Option Nat → Nat
  | 0, _, space =>
    match space with
    | some s => s
    | none => cols
  | fuel + 1, i, space =>
    if text.getD i 0 = 10 ∨ text.getD i 0 = 0 then i
    else if text.getD i 0 = 32 then get_len_loop cols text fuel (i + 1) (some i)
    else get_len_loop cols text fuel (i + 1) space

/-- The scan of `get_len` for a column limit `cols`: the loop runs for
`i = 0 .. cols`. -/
def get_len_cols (cols : Nat) (text : List Nat) : Nat :=
  get_len_loop cols text (cols + 1) 0 none

/-- The function `get_len(font, text)`. -/
def get_len (font : font_size) (text : List Nat) : Nat :=
  get_len_cols (fonts_columns font) text

/-- The bytes of a string literal. -/
def bytes (s : String) : List Nat := s.toList.map Char.toNat

/-! ## Screens and the button -/

/-- The `enum screen_ids`. -/
def SCREEN_MAIN : Nat := 0
/-- The `enum screen_ids`. -/
def SCREEN_SENSORS : Nat := 1
/-- The `enum screen_ids`. -/
def SCREEN_STATS : Nat := 2
/-- The `enum screen_ids`. -/
def SCREEN_LAST : Nat := 3

/-- A delay handed to `k_delayed_work_submit`, kept as written in the
source. -/
inductive Timeout where
  | K_NO_WAIT
  | K_FOREVER
  | K_MSEC (ms : Nat)
  | K_SECONDS (s : Nat)
deriving DecidableEq, Repr

/-- The `#define LONG_PRESS_TIMEOUT K_SECONDS(1)`. -/
def LONG_PRESS_TIMEOUT : Timeout := .K_SECONDS 1

/-- The calls out of the module that the button and screen code makes. -/
inductive Call where
  | printk_button (pressed : Bool)
  | printk_change_screen (id : Nat)
  | mesh_send_hello
deriving DecidableEq, Repr

/-- The file-scope state used by the button and screen code: `pressed`,
`screen_id`, the two delayed work items (`none`: nothing pending, `some d`:
submitted with delay `d`) and the calls made so far, oldest first. -/
structure Board where
  pressed : Bool
  screen_id : Nat
  long_press_work : Option Timeout
  epd_work : Option Timeout
  calls : List Call
deriving DecidableEq, Repr

/-- What one run of `button_interrupt` reads from outside: the value of
`button_is_pressed()`, the argument `pins` and the value of
`mesh_is_initialized()`. -/
structure ButtonInput where
  level : Bool
  pins : Nat
  mesh_initialized : Bool
deriving DecidableEq, Repr

/-- The function `board_refresh_display`. -/
def board_refresh_display (b : Board) : Board :=
  { b with epd_work := some .K_NO_WAIT }

/-- The work handler `long_press`. -/
def long_press (b : Board) : Board :=
  let b1 : Board := { b with pressed := false }
  let b2 : Board := { b1 with screen_id := ((b1.screen_id + 1) % SCREEN_LAST) % 2 ^ 8 }
  let b3 : Board := { b2 with calls := b2.calls ++ [.printk_change_screen b2.screen_id] }
  board_refresh_display b3

/-- The expiry of the delayed work `long_press_work`: when it is pending it
stops being pending and its handler `long_press` runs. -/
def long_press_work_expire (b : Board) : Board :=
  match b.long_press_work with
  | none => b
  | some _ => long_press { b with long_press_work := none }

/-- The callback `button_interrupt`; `sw0` stands for `SW0_GPIO_PIN`. -/
def button_interrupt (sw0 : Nat) (inp : ButtonInput) (b : Board) : Board :=
  if inp.level = b.pressed then b
  else
    let b1 : Board := { b with pressed := !b.pressed }
    let b2 : Board := { b1 with calls := b1.calls ++ [.printk_button b1.pressed] }
    if b2.pressed then
      { b2 with long_press_work := some LONG_PRESS_TIMEOUT }
    else
      let b3 : Board := { b2 with long_press_work := none }
      if !inp.mesh_initialized then b3
      else if b3.screen_id = SCREEN_SENSORS ∨ b3.screen_id = SCREEN_STATS then b3
      else if b3.screen_id = SCREEN_MAIN then
        if inp.pins &&& ((1 <<< sw0) % 2 ^ 32) ≠ 0 then
          { b3 with calls := b3.calls ++ [.mesh_send_hello] }
        else b3
      else b3

/-- The number of `mesh_send_hello` calls made so far. -/
def hello_calls (b : Board) : Nat := b.calls.count .mesh_send_hello

/-- The number of screen changes made so far (runs of `long_press`). -/
def screen_changes (b : Board) : Nat :=
  (b.calls.filter (fun c => match c with | .printk_change_screen _ => true | _ => false)).length

/-- The board state at start: button released, main screen, nothing pending. -/
def board_start : Board :=
  { pressed := false, screen_id := SCREEN_MAIN, long_press_work := none, epd_work := none,
    calls := [] }

/-- A table whose `STAT_COUNT` slots are all occupied, by the addresses
`1 .. 128`. -/
def full_example : Table :=
  { stats := (List.range STAT_COUNT).map
      (fun i => { stat_init 127 with addr := i + 1, hello_count := 1 }),
    stat_count := STAT_COUNT }

/-- A table with two peers, the second of which (address `7`) has both
counters at `65535`. -/
def saturated_example : Table :=
  { stats := [{ stat_init 127 with addr := 5, hello_count := 1 },
              { stat_init 127 with addr := 7, hello_count := 65535, heartbeat_count := 65535 }]
      ++ List.replicate (STAT_COUNT - 2) (stat_init 127),
    stat_count := 2 }

/-! ## Abstraction of the table to its list of addresses -/

/-- The slot addresses after one scan for `a`, as a function of the slot
addresses before it. -/
def track (a : Nat) : List Nat → List Nat
  | [] => []
  | x :: xs => if x = 0 then a :: xs else if x = a then x :: xs else x :: track a xs

/-- Whether the scan for `a` stops at an empty slot (and so runs
`stat_count++`), as a function of the slot addresses. -/
def takes_slot (a : Nat) : List Nat → Bool
  | [] => false
  | x :: xs => if x = 0 then true else if x = a then false else takes_slot a xs

/-- The peers tracked after a call for address `a` when `seen` were tracked
before it: a non-zero address not yet tracked is appended while there is
room. -/
def see (seen : List Nat) (a : Nat) : List Nat :=
  if a = 0 ∨ a ∈ seen ∨ STAT_COUNT ≤ seen.length then seen else seen ++ [a]

/-- The peers tracked after a sequence of calls, oldest first. -/
def see_all (seen : List Nat) (evs : List Event) : List Nat :=
  evs.foldl (fun s e => see s e.addr) seen

/-- The table holds exactly the peers `seen`, in this order, in its first
slots, and its other slots are empty. -/
def Shape (t : Table) (seen : List Nat) : Prop :=
  t.stats.map Stat.addr = seen ++ List.replicate (STAT_COUNT - seen.length) 0
    ∧ seen.length ≤ STAT_COUNT ∧ seen.Nodup ∧ 0 ∉ seen

/-- Every counter of the table is a 16-bit value. -/
def Bounded (l : List Stat) : Prop :=
  ∀ s ∈ l, s.hello_count ≤ 65535 ∧ s.heartbeat_count ≤ 65535

/-! ## Abstraction of the ranking loop -/

/-- The array `top` that holds the slots `L` (at most four of them) in its
first cells and `-1` in the others. -/
def pad_top (L : List Nat) : List Int :=
  L.map Int.ofNat ++ List.replicate (4 - L.length) (-1)

/-- The slots of a run of occupied slots starting at index `i` that the
ranking loop does not skip. -/
def cands : Nat → List Stat → List Nat
  | _, [] => []
  | i, s :: rest => if s.hello_count = 0 then cands (i + 1) rest else i :: cands (i + 1) rest

/-- The order in which the ranking loop inserts a new slot `a`: before the
first holder `b` with a strictly smaller `hello_count`. -/
def rank_lt (t : Table) (a b : Nat) : Prop := hello_at t b < hello_at t a

instance (t : Table) : DecidableRel (rank_lt t) := fun a b => by
  unfold rank_lt; exact inferInstance

/-! ## Display -/

/-- The Zephyr `struct sensor_value`. -/
structure sensor_value where
  val1 : Int
  val2 : Int
deriving DecidableEq, Repr

/-- The calls of `snprintk` / `snprintf` of the display code: one constructor
for each format string, with the arguments passed. -/
inductive Format where
  | own_address (addr : Nat)
  | node_count (count : Nat)
  | most_messages
  | top_sender (hello_count addr : Nat) (name : List Nat)
  | temperature (whole frac : Int)
  | humidity (whole : Int)
  | accel_x (v : sensor_value)
  | accel_y (v : sensor_value)
  | accel_z (v : sensor_value)
  | light (v : Int)
  | proximity (v : Int)
deriving DecidableEq, Repr

/-- The calls that the display code makes on the frame buffer, and its two
error messages. -/
inductive Cfb where
  | framebuffer_clear
  | framebuffer_set_font (font : font_size)
  | print (line : List Nat) (x y : Int)
  | framebuffer_finalize
  | printk_print_failed
  | printk_sensor_failed
deriving DecidableEq, Repr

/-- What the display code obtains from outside this file: the glyph size
`(width, height)` given by `cfb_get_font_size`, whether `cfb_print` reports
an error for a call, the text produced for a format call, `mesh_get_addr()`,
`bt_get_name()`, the constant `CONFIG_BT_DEVICE_NAME_MAX`, and the values
sampled by the three sensor readers (`none` when the reader reports an
error). -/
structure DisplayEnv where
  cfb_get_font_size : font_size → Nat × Nat
  cfb_print : List Nat → Int → Int → Bool
  snprintf : Format → List Nat
  mesh_get_addr : Nat
  bt_get_name : List Nat
  BT_DEVICE_NAME_MAX : Nat
  get_hdc1010_val : Option (sensor_value × sensor_value)
  get_mma8652_val : Option (sensor_value × sensor_value × sensor_value)
  get_apds9960_val : Option (sensor_value × sensor_value)

/-- The function `print_line(font_size, row, text, len, center)`: the calls
made and the value returned.  The string handed to `cfb_print` is the one in
the buffer `line` after `memcpy(line, text, len)` and `line[len] = 0`.  The
products are taken in `int` without overflow. -/
def print_line (env : DisplayEnv) (font : font_size) (row : Int) (text : List Nat) (len : Nat)
    (center : Bool) : List Cfb × Nat :=
  let len1 := min len (fonts_columns font)
  let line := cstr (text.take len1)
  let pad : Int := if center then (((fonts_columns font - len1) / 2 : Nat) : Int) else 0
  let x : Int := ((env.cfb_get_font_size font).1 : Int) * pad
  let y : Int := ((env.cfb_get_font_size font).2 : Int) * row
  ([Cfb.framebuffer_set_font font, Cfb.print line x y]
      ++ (if env.cfb_print line x y then [Cfb.printk_print_failed] else []),
    len1)

/-- The number of iterations of `while (*text == ' ' || *text == '\n') text++`. -/
def skip_count : List Nat → Nat
  | [] => 0
  | c :: rest => if c = 32 ∨ c = 10 then skip_count rest + 1 else 0

/-- One call of `print_line` made by `board_show_text`: the row, the offset
of the pointer `text` from the start of the string, and the length. -/
structure LineCall where
  row : Nat
  off : Nat
  len : Nat
deriving DecidableEq, Repr

/-- The loop `for (i = 0; i < 3; i++)` of `board_show_text`, entered at `i`
with `fuel` iterations left and the pointer `text` at offset `off`: the calls
of `print_line` it makes. -/
def board_show_text_loop (env : DisplayEnv) (center : Bool) (text : List Nat) :
    Nat → Nat → Nat → List LineCall
  | 0, _, _ => []
  | fuel + 1, i, off =>
    let off1 := off + skip_count (text.drop off)
    let len := get_len .FONT_BIG (text.drop off1)
    if len = 0 then []
    else
      let off2 := off1 + (print_line env .FONT_BIG (i : Int) (text.drop off1) len center).2
      { row := i, off := off1, len := len } ::
        (if text.getD off2 0 = 0 then []
         else board_show_text_loop env center text fuel (i + 1) off2)

/-- The calls of `print_line` made by `board_show_text` for `text`. -/
def board_show_text_calls (env : DisplayEnv) (center : Bool) (text : List Nat) :
    List LineCall :=
  board_show_text_loop env center text 3 0 0

/-- The function `board_show_text(text, center, duration)`: the new board
state and the display calls made. -/
def board_show_text (env : DisplayEnv) (text : List Nat) (center : Bool) (duration : Timeout)
    (b : Board) : Board × List Cfb :=
  let draws := [Cfb.framebuffer_clear]
    ++ (board_show_text_calls env center text).flatMap
        (fun c => (print_line env .FONT_BIG (c.row : Int) (text.drop c.off) c.len center).1)
    ++ [Cfb.framebuffer_finalize]
  (if duration ≠ .K_FOREVER then { b with epd_work := some duration } else b, draws)

/-- A call `snprintk(str, size, ...)` whose complete output is `formatted`:
the string left in `str` and the value returned. -/
def snprintk (size : Nat) (formatted : List Nat) : List Nat × Nat :=
  (formatted.take (size - 1), formatted.length)

/-- The last loop of `show_statistics`, entered with the text line `line` and
the cells of `top` not yet visited. -/
def show_top_lines (env : DisplayEnv) (t : Table) : Nat → List Int → List Cfb
  | _, [] => []
  | line, k :: rest =>
    if k < 0 then []
    else
      let stat := t.stats.getD k.toNat default
      let str := snprintk 32
        (env.snprintf (.top_sender stat.hello_count stat.addr (cstr stat.name)))
      (print_line env .FONT_SMALL (line : Int) str.1 str.2 false).1
        ++ show_top_lines env t (line + 1) rest

/-- The function `show_statistics`: the display calls made. -/
def show_statistics (env : DisplayEnv) (t : Table) : List Cfb :=
  let str0 := snprintk 32 (env.snprintf (.own_address env.mesh_get_addr))
  let str1 := snprintk 32 (env.snprintf (.node_count ((t.stat_count + 1) % 2 ^ 32)))
  let top := show_statistics_top t
  let str2 := snprintk 32 (env.snprintf .most_messages)
  [Cfb.framebuffer_clear]
    ++ (print_line env .FONT_SMALL 0 str0.1 str0.2 false).1
    ++ (print_line env .FONT_SMALL 1 str1.1 str1.2 false).1
    ++ (if t.stat_count > 0 then
          (print_line env .FONT_SMALL 2 str2.1 str2.2 false).1 ++ show_top_lines env t 3 top
        else [])
    ++ [Cfb.framebuffer_finalize]

/-- One text line of `show_sensors_data`: `snprintf` into `str_buf` (256
bytes), the length kept in a `u16_t`, then `print_line`. -/
def sensor_line (env : DisplayEnv) (line : Nat) (f : Format) : List Cfb :=
  let str := snprintk 256 (env.snprintf f)
  (print_line env .FONT_SMALL (line : Int) str.1 (str.2 % 2 ^ 16) false).1

/-- The function `show_sensors_data(interval)`: the new board state and the
display calls made. -/
def show_sensors_data (env : DisplayEnv) (interval : Timeout) (b : Board) : Board × List Cfb :=
  match env.get_hdc1010_val with
  | none => (b, [Cfb.framebuffer_clear, Cfb.printk_sensor_failed])
  | some (t0, t1) =>
    let d1 := [Cfb.framebuffer_clear]
      ++ sensor_line env 0 (.temperature t0.val1 (Int.tdiv t0.val2 100000))
      ++ sensor_line env 1 (.humidity t1.val1)
    match env.get_mma8652_val with
    | none => (b, d1 ++ [Cfb.printk_sensor_failed])
    | some (a0, a1, a2) =>
      let d2 := d1 ++ sensor_line env 2 (.accel_x a0) ++ sensor_line env 3 (.accel_y a1)
        ++ sensor_line env 4 (.accel_z a2)
      match env.get_apds9960_val with
      | none => (b, d2 ++ [Cfb.printk_sensor_failed])
      | some (p0, p1) =>
        ({ b with epd_work := some interval },
          d2 ++ sensor_line env 5 (.light p0.val1) ++ sensor_line env 6 (.proximity p1.val1)
            ++ [Cfb.framebuffer_finalize])

/-- The loop "Convert commas to newlines" of `show_main`. -/
def commas_to_newlines : List Nat → List Nat
  | [] => []
  | c :: rest =>
    if c = 0 then c :: rest
    else (if c = 44 then 10 else c) :: commas_to_newlines rest

/-- The function `show_main`; the buffer `buf` is written completely by
`strncpy` and the store of the final terminator. -/
def show_main (env : DisplayEnv) (b : Board) : Board × List Cfb :=
  let buf0 := strncpy (List.replicate env.BT_DEVICE_NAME_MAX 0) env.bt_get_name
    (env.BT_DEVICE_NAME_MAX - 1)
  let buf1 := buf0.set (env.BT_DEVICE_NAME_MAX - 1) 0
  board_show_text env (commas_to_newlines buf1) true .K_FOREVER b

/-- The work handler `epd_update`. -/
def epd_update (env : DisplayEnv) (t : Table) (b : Board) : Board × List Cfb :=
  if b.screen_id = SCREEN_STATS then (b, show_statistics env t)
  else if b.screen_id = SCREEN_SENSORS then show_sensors_data env (.K_SECONDS 2) b
  else if b.screen_id = SCREEN_MAIN then show_main env b
  else (b, [])

/-- The `cfb_print` calls among some display calls: string and pixel
position of each, in order. -/
def printed : List Cfb → List (List Nat × Int × Int)
  | [] => []
  | .print line x y :: rest => (line, x, y) :: printed rest
  | _ :: rest => printed rest

/-- A display environment used for examples: glyphs of 8 by 16 pixels and
three readable sensors; `cfb_print` never fails and the formatted texts are
empty. -/
def env_example : DisplayEnv :=
  { cfb_get_font_size := fun _ => (8, 16),
    cfb_print := fun _ _ _ => false,
    snprintf := fun _ => [],
    mesh_get_addr := 1,
    bt_get_name := bytes "reel board",
    BT_DEVICE_NAME_MAX := 28,
    get_hdc1010_val := some (⟨21, 500000⟩, ⟨40, 0⟩),
    get_mma8652_val := some (⟨0, 0⟩, ⟨0, 0⟩, ⟨9, 800000⟩),
    get_apds9960_val := some (⟨100, 0⟩, ⟨3, 0⟩) }

/-- The end of the last drawn line: the offset just after the last call, or
`e` when no call was made. -/
def line_end : Nat → List LineCall → Nat
  | e, [] => e
  | _, c :: rest => line_end (c.off + c.len) rest

/-- The calls `cs`, made with the pointer previously at offset `e`, wrap the
text: before each line only spaces and newlines are skipped, the line starts
at a character that is neither, has 1 to 12 characters and holds no newline
and no terminator. -/
def Wrapped (text : List Nat) : Nat → List LineCall → Prop
  | _, [] => True
  | e, c :: rest =>
    (e ≤ c.off ∧ (∀ p, e ≤ p → p < c.off → text.getD p 0 = 32 ∨ text.getD p 0 = 10)
      ∧ 1 ≤ c.len ∧ c.len ≤ 12
      ∧ ¬ (text.getD c.off 0 = 32 ∨ text.getD c.off 0 = 10)
      ∧ (∀ j, j < c.len → ¬ (text.getD (c.off + j) 0 = 10 ∨ text.getD (c.off + j) 0 = 0)))
    ∧ Wrapped text (c.off + c.len) rest

/-! ## LED sequencer -/

/-- The number of entries of the array `leds`. -/
def LEDS_SIZE : Nat := 4

/-- The state of the LED sequencer: the static counter `led_cntr` of
`led_timeout`, the delayed work `led_timer` (`none`: not pending) and the
level last written to each LED pin by `gpio_pin_write` (`1`: off, `0`: lit). -/
structure Leds where
  led_cntr : Nat
  led_timer : Option Timeout
  level : List Nat
deriving DecidableEq, Repr

/-- The sequencer after `configure_leds`: counter 0, nothing pending, every
pin written with `1`. -/
def leds_start : Leds :=
  { led_cntr := 0, led_timer := none, level := List.replicate LEDS_SIZE 1 }

/-- The function `board_blink_leds`. -/
def board_blink_leds (s : Leds) : Leds :=
  { s with led_timer := some (.K_MSEC 100) }

/-- The work handler `led_timeout`. -/
def led_timeout (s : Leds) : Leds :=
  let s1 : Leds := { s with level := List.replicate LEDS_SIZE 1 }
  if s1.led_cntr > LEDS_SIZE * 5 then
    { s1 with led_cntr := 0 }
  else
    let i := s1.led_cntr % LEDS_SIZE
    let s2 : Leds := { s1 with led_cntr := s1.led_cntr + 1 }
    let s3 : Leds := { s2 with level := s2.level.set i 0 }
    { s3 with led_timer := some (.K_MSEC 100) }

/-- The expiry of the delayed work `led_timer`: when it is pending it stops
being pending and its handler `led_timeout` runs. -/
def led_timer_expire (s : Leds) : Leds :=
  match s.led_timer with
  | none => s
  | some _ => led_timeout { s with led_timer := none }

/-- The pin levels after each expiry of `led_timer`, for as long as it is
pending (at most `fuel` expiries), and the state reached. -/
def led_run : Nat → Leds → List (List Nat) × Leds
  | 0, s => ([], s)
  | fuel + 1, s =>
    match s.led_timer with
    | none => ([], s)
    | some _ =>
      let r := led_run fuel (led_timer_expire s)
      ((led_timer_expire s).level :: r.1, r.2)

/-- What can happen to the sequencer: a call of `board_blink_leds` or an
expiry of `led_timer`. -/
inductive LedEvent where
  | trigger
  | tick
deriving DecidableEq, Repr

/-- The sequencer after one event. -/
def led_step (s : Leds) : LedEvent → Leds
  | .trigger => board_blink_leds s
  | .tick => led_timer_expire s

/-- The sequencer after a sequence of events, oldest first. -/
def led_events (s : Leds) (evs : List LedEvent) : Leds := evs.foldl led_step s

/-- The LEDs that are lit: the indices of the pins at level `0`. -/
def lit (level : List Nat) : List Nat :=
  (List.range level.length).filter (fun i => level.getD i 1 = 0)

/-! ## Properties of the table scan -/

theorem add_hello_loop_skip (addr : Nat) (name : List Nat) (pre l : List Stat)
    (hpre : ∀ x ∈ pre, x.addr ≠ 0 ∧ x.addr ≠ addr) (i c : Nat) :
    add_hello_loop addr name i c (pre ++ l) =
      (pre ++ (add_hello_loop addr name (i + pre.length) c l).1,
        (add_hello_loop addr name (i + pre.length) c l).2.1,
        (add_hello_loop addr name (i + pre.length) c l).2.2) := by
  induction pre generalizing i with
  | nil => simp
  | cons x pre ih =>
    have hx := hpre x (List.mem_cons_self _ _)
    have hrest : ∀ y ∈ pre, y.addr ≠ 0 ∧ y.addr ≠ addr :=
      fun y hy => hpre y (List.mem_cons_of_mem _ hy)
    rw [List.cons_append, add_hello_loop, if_neg hx.1, if_neg hx.2]
    simp only [ih hrest (i + 1), List.length_cons, List.cons_append]
    have e : i + 1 + pre.length = i + (pre.length + 1) := by omega
    rw [e]

theorem add_heartbeat_loop_skip (addr hops : Nat) (pre l : List Stat)
    (hpre : ∀ x ∈ pre, x.addr ≠ 0 ∧ x.addr ≠ addr) (i c : Nat) :
    add_heartbeat_loop addr hops i c (pre ++ l) =
      (pre ++ (add_heartbeat_loop addr hops (i + pre.length) c l).1,
        (add_heartbeat_loop addr hops (i + pre.length) c l).2.1,
        (add_heartbeat_loop addr hops (i + pre.length) c l).2.2) := by
  induction pre generalizing i with
  | nil => simp
  | cons x pre ih =>
    have hx := hpre x (List.mem_cons_self _ _)
    have hrest : ∀ y ∈ pre, y.addr ≠ 0 ∧ y.addr ≠ addr :=
      fun y hy => hpre y (List.mem_cons_of_mem _ hy)
    rw [List.cons_append, add_heartbeat_loop, if_neg hx.1, if_neg hx.2]
    simp only [ih hrest (i + 1), List.length_cons, List.cons_append]
    have e : i + 1 + pre.length = i + (pre.length + 1) := by omega
    rw [e]

theorem add_hello_loop_none (addr : Nat) (name : List Nat) (l : List Stat)
    (hl : ∀ x ∈ l, x.addr ≠ 0 ∧ x.addr ≠ addr) (i c : Nat) :
    add_hello_loop addr name i c l = (l, c, NO_UPDATE) := by
  have h := add_hello_loop_skip addr name l [] hl i c
  simpa [add_hello_loop] using h

theorem add_heartbeat_loop_none (addr hops : Nat) (l : List Stat)
    (hl : ∀ x ∈ l, x.addr ≠ 0 ∧ x.addr ≠ addr) (i c : Nat) :
    add_heartbeat_loop addr hops i c l = (l, c, NO_UPDATE) := by
  have h := add_heartbeat_loop_skip addr hops l [] hl i c
  simpa [add_heartbeat_loop] using h

theorem getD_split (pre post : List Stat) (x d : Stat) :
    (pre ++ x :: post).getD pre.length d = x := by
  induction pre with
  | nil => rfl
  | cons y pre ih => simpa using ih

theorem add_hello_loop_match (addr : Nat) (name : List Nat) (pre post : List Stat) (s : Stat)
    (hpre : ∀ x ∈ pre, x.addr ≠ 0 ∧ x.addr ≠ addr) (hocc : s.addr ≠ 0) (hmatch : s.addr = addr)
    (i c : Nat) :
    add_hello_loop addr name i c (pre ++ s :: post) =
      (pre ++ { s with name := strncpy s.name name 8,
                       hello_count := if s.hello_count < 0xffff
                         then (s.hello_count + 1) % 2 ^ 16 else s.hello_count } :: post,
        c, if s.hello_count < 0xffff then ((i + pre.length : Nat) : Int) else NO_UPDATE) := by
  rw [add_hello_loop_skip addr name pre (s :: post) hpre i c]
  simp only [add_hello_loop, if_neg hocc, if_pos hmatch]
  split_ifs <;> rfl

theorem add_heartbeat_loop_match (addr hops : Nat) (pre post : List Stat) (s : Stat)
    (hpre : ∀ x ∈ pre, x.addr ≠ 0 ∧ x.addr ≠ addr) (hocc : s.addr ≠ 0) (hmatch : s.addr = addr)
    (i c : Nat) :
    add_heartbeat_loop addr hops i c (pre ++ s :: post) =
      (pre ++ { s with
                  min_hops := if hops < s.min_hops then hops else s.min_hops,
                  max_hops := if hops < s.min_hops then s.max_hops
                    else if hops > s.max_hops then hops else s.max_hops,
                  heartbeat_count := if s.heartbeat_count < 0xffff
                    then (s.heartbeat_count + 1) % 2 ^ 16 else s.heartbeat_count } :: post,
        c, if s.heartbeat_count < 0xffff then ((i + pre.length : Nat) : Int) else NO_UPDATE) := by
  rw [add_heartbeat_loop_skip addr hops pre (s :: post) hpre i c]
  simp only [add_heartbeat_loop, if_neg hocc, if_pos hmatch]
  by_cases h1 : hops < s.min_hops <;> by_cases h2 : hops > s.max_hops <;>
    by_cases h3 : s.heartbeat_count < 0xffff <;> simp [h1, h2, h3]

theorem add_hello_loop_empty (addr : Nat) (name : List Nat) (pre post : List Stat) (s : Stat)
    (hpre : ∀ x ∈ pre, x.addr ≠ 0 ∧ x.addr ≠ addr) (hemp : s.addr = 0) (i c : Nat) :
    add_hello_loop addr name i c (pre ++ s :: post) =
      (pre ++ { s with addr := addr, name := strncpy s.name name 8, hello_count := 1 } :: post,
        (c + 1) % 2 ^ 32, ((i + pre.length : Nat) : Int)) := by
  rw [add_hello_loop_skip addr name pre (s :: post) hpre i c]
  simp only [add_hello_loop, if_pos hemp]

theorem add_heartbeat_loop_empty (addr hops : Nat) (pre post : List Stat) (s : Stat)
    (hpre : ∀ x ∈ pre, x.addr ≠ 0 ∧ x.addr ≠ addr) (hemp : s.addr = 0) (i c : Nat) :
    add_heartbeat_loop addr hops i c (pre ++ s :: post) =
      (pre ++ { s with addr := addr, heartbeat_count := 1, min_hops := hops,
                       max_hops := hops } :: post,
        (c + 1) % 2 ^ 32, ((i + pre.length : Nat) : Int)) := by
  rw [add_heartbeat_loop_skip addr hops pre (s :: post) hpre i c]
  simp only [add_heartbeat_loop, if_pos hemp]

/-! ## C6: a full table drops unseen peers -/

/-- C6: when every one of the `STAT_COUNT` slots is occupied and `addr`
matches none of them, `add_hello` and `add_heartbeat` both return
`NO_UPDATE` and give back the table (all slots and `stat_count`) unchanged. -/
theorem full_table_no_update (t : Table) (addr : Nat) (name : List Nat) (hops : Nat)
    (_hlen : t.stats.length = STAT_COUNT)
    (hfull : ∀ x ∈ t.stats, x.addr ≠ 0)
    (hnew : ∀ x ∈ t.stats, x.addr ≠ addr) :
    add_hello addr name t = (t, NO_UPDATE) ∧ add_heartbeat addr hops t = (t, NO_UPDATE) := by
  have hl : ∀ x ∈ t.stats, x.addr ≠ 0 ∧ x.addr ≠ addr := fun x hx => ⟨hfull x hx, hnew x hx⟩
  refine ⟨?_, ?_⟩
  · simp [add_hello, add_hello_loop_none addr name t.stats hl]
  · simp [add_heartbeat, add_heartbeat_loop_none addr hops t.stats hl]

set_option maxRecDepth 100000 in
/-- C6 at a concrete input: the table occupied by the addresses `1 .. 128`
drops a hello and a heartbeat of address `200`. -/
theorem full_table_no_update_witness :
    add_hello 200 (bytes "PEER") full_example = (full_example, NO_UPDATE) ∧
    add_heartbeat 200 3 full_example = (full_example, NO_UPDATE) :=
  full_table_no_update full_example 200 (bytes "PEER") 3 (by decide) (by decide) (by decide)

/-! ## C3: calls for address 0 -/

/-- C3, refuted as stated: on the initial table `add_hello(0, ..)` raises
`stat_count` from 0 to 1 and sets the `hello_count` of slot 0 to 1, and
`add_heartbeat(0, 3)` raises `stat_count` to 1 and overwrites the counters
and hop bounds of slot 0. -/
theorem addr_zero_changes_table :
    (table_init 127).stat_count = 0
    ∧ (add_hello 0 (bytes "AB") (table_init 127)).1.stat_count = 1
    ∧ ((table_init 127).stats.getD 0 default).hello_count = 0
    ∧ ((add_hello 0 (bytes "AB") (table_init 127)).1.stats.getD 0 default).hello_count = 1
    ∧ (add_heartbeat 0 3 (table_init 127)).1.stat_count = 1
    ∧ ((table_init 127).stats.getD 0 default).min_hops = 127
    ∧ ((add_heartbeat 0 3 (table_init 127)).1.stats.getD 0 default).min_hops = 3
    ∧ (add_hello 0 (bytes "AB") (table_init 127)).1 ≠ table_init 127
    ∧ (add_heartbeat 0 3 (table_init 127)).1 ≠ table_init 127 := by
  decide

/-- C3 as amended: a call for address 0 never occupies a slot and never
touches an occupied slot or an empty slot other than the first one.  When the
slots `pre` are occupied and `s` is the first empty slot, `add_hello(0, name)`
rewrites only the `name` and `hello_count` of `s` (its address stays 0),
`add_heartbeat(0, hops)` only its `heartbeat_count` and hop bounds, both raise
`stat_count` by one modulo `2 ^ 32` and return the index of `s`; when no slot
is empty both return `NO_UPDATE` and change nothing. -/
theorem addr_zero_effect (t : Table) (name : List Nat) (hops : Nat) :
    (∀ pre post s, t.stats = pre ++ s :: post → (∀ x ∈ pre, x.addr ≠ 0) → s.addr = 0 →
      add_hello 0 name t =
        ({ stats := pre ++ { s with name := strncpy s.name name 8, hello_count := 1 } :: post,
           stat_count := (t.stat_count + 1) % 2 ^ 32 }, (pre.length : Int))
      ∧ add_heartbeat 0 hops t =
        ({ stats := pre ++ { s with heartbeat_count := 1, min_hops := hops,
                                    max_hops := hops } :: post,
           stat_count := (t.stat_count + 1) % 2 ^ 32 }, (pre.length : Int)))
    ∧ ((∀ x ∈ t.stats, x.addr ≠ 0) →
      add_hello 0 name t = (t, NO_UPDATE) ∧ add_heartbeat 0 hops t = (t, NO_UPDATE)) := by
  constructor
  · intro pre post s hsplit hpre hemp
    have hpre2 : ∀ x ∈ pre, x.addr ≠ 0 ∧ x.addr ≠ 0 := fun x hx => ⟨hpre x hx, hpre x hx⟩
    have e1 : ({ s with addr := 0, name := strncpy s.name name 8, hello_count := 1 } : Stat)
        = { s with name := strncpy s.name name 8, hello_count := 1 } := by
      simp [hemp]
    have e2 : ({ s with addr := 0, heartbeat_count := 1, min_hops := hops,
                        max_hops := hops } : Stat)
        = { s with heartbeat_count := 1, min_hops := hops, max_hops := hops } := by
      simp [hemp]
    constructor
    · simp only [add_hello, hsplit, add_hello_loop_empty 0 name pre post s hpre2 hemp 0, e1,
        Nat.zero_add]
    · simp only [add_heartbeat, hsplit, add_heartbeat_loop_empty 0 hops pre post s hpre2 hemp 0,
        e2, Nat.zero_add]
  · intro hfull
    have hl : ∀ x ∈ t.stats, x.addr ≠ 0 ∧ x.addr ≠ 0 := fun x hx => ⟨hfull x hx, hfull x hx⟩
    constructor
    · simp [add_hello, add_hello_loop_none 0 name t.stats hl]
    · simp [add_heartbeat, add_heartbeat_loop_none 0 hops t.stats hl]

/-- C3 as amended, at a concrete input: with the peer of address `5` in slot
0 and slot 1 empty, a hello for address 0 rewrites slot 1 only and returns 1. -/
theorem addr_zero_effect_witness :
    (add_hello 0 (bytes "AB") (run (table_init 127) [.hello 5 (bytes "X")])).2 = 1
    ∧ (add_heartbeat 0 3 (run (table_init 127) [.hello 5 (bytes "X")])).2 = 1 := by
  have h := (addr_zero_effect (run (table_init 127) [.hello 5 (bytes "X")]) (bytes "AB") 3).1
    [{ stat_init 127 with addr := 5, name := strncpy (List.replicate 9 0) (bytes "X") 8,
                          hello_count := 1 }]
    (List.replicate (STAT_COUNT - 2) (stat_init 127)) (stat_init 127)
    (by decide) (by decide) rfl
  exact ⟨by rw [h.1]; rfl, by rw [h.2]; rfl⟩

/-! ## C4: hop bounds -/

/-- C4, the behaviour of the code at the failing input: a peer inserted by
`add_hello` (bounds `BT_MESH_TTL_MAX = 127` and `0`) whose first heartbeat
arrives with 5 hops ends with `heartbeat_count = 1`, `min_hops = 5` and
`max_hops = 0`, because the `else if` of `add_heartbeat` moves one bound
only. -/
theorem hello_then_heartbeat_bounds :
    (run (table_init 127) [.hello 1 (bytes "A"), .heartbeat 1 5]).stats.head? =
      some { addr := 1, name := [65, 0, 0, 0, 0, 0, 0, 0, 0], min_hops := 5, max_hops := 0,
             hello_count := 1, heartbeat_count := 1 } := by
  decide

/-! ## C8: the screen cycle -/

/-- C8: from Main one `long_press` leads to Sensors, two to Stats and three
back to Main; from every screen `s` of Main, Sensors, Stats three long
presses lead back to `s`, and after a `long_press` the screen id is one of
0, 1, 2. -/
theorem screen_cycle (b : Board) :
    (b.screen_id = SCREEN_MAIN →
      (long_press b).screen_id = SCREEN_SENSORS
      ∧ (long_press (long_press b)).screen_id = SCREEN_STATS
      ∧ (long_press (long_press (long_press b))).screen_id = SCREEN_MAIN)
    ∧ (b.screen_id < SCREEN_LAST →
      (long_press (long_press (long_press b))).screen_id = b.screen_id)
    ∧ (long_press b).screen_id < SCREEN_LAST := by
  simp only [long_press, board_refresh_display, SCREEN_MAIN, SCREEN_SENSORS, SCREEN_STATS,
    SCREEN_LAST]
  refine ⟨fun h => ?_, fun h => ?_, ?_⟩
  · simp [h]
  · omega
  · omega

/-- C8 at a concrete input: the board at start is on Main and comes back to
Main after three long presses, passing through Sensors and Stats. -/
theorem screen_cycle_witness :
    (long_press board_start).screen_id = SCREEN_SENSORS
    ∧ (long_press (long_press board_start)).screen_id = SCREEN_STATS
    ∧ (long_press (long_press (long_press board_start))).screen_id = SCREEN_MAIN :=
  (screen_cycle board_start).1 rfl

/-! ## C9, C10: short and long presses -/

/-- C9, refuted as stated: while `mesh_is_initialized()` is false, a press
edge followed by a release edge on Main makes no `mesh_send_hello` call. -/
theorem short_press_without_mesh :
    hello_calls board_start = 0
    ∧ hello_calls
        (button_interrupt 0 { level := false, pins := 1, mesh_initialized := false }
          (button_interrupt 0 { level := true, pins := 1, mesh_initialized := false }
            board_start)) = 0 := by
  decide

/-- C9 as amended: with the recorded state released and the screen on Main,
a press edge followed by a release edge, with no expiry of the long-press
work in between, leaves that work cancelled, makes no screen change, and
calls `mesh_send_hello` exactly once when at the release `mesh_is_initialized()`
holds and `pins` has the bit of `SW0_GPIO_PIN` set, and not at all otherwise. -/
theorem short_press (sw0 : Nat) (b : Board) (press release : ButtonInput)
    (hrel : b.pressed = false) (hmain : b.screen_id = SCREEN_MAIN)
    (hpress : press.level = true) (hrelease : release.level = false) :
    (button_interrupt sw0 release (button_interrupt sw0 press b)).long_press_work = none
    ∧ (button_interrupt sw0 release (button_interrupt sw0 press b)).screen_id = SCREEN_MAIN
    ∧ screen_changes (button_interrupt sw0 release (button_interrupt sw0 press b))
        = screen_changes b
    ∧ hello_calls (button_interrupt sw0 release (button_interrupt sw0 press b))
        = hello_calls b +
          (if release.mesh_initialized = true ∧ release.pins &&& ((1 <<< sw0) % 2 ^ 32) ≠ 0
            then 1 else 0) := by
  have hne : (SCREEN_MAIN = SCREEN_SENSORS ∨ SCREEN_MAIN = SCREEN_STATS) = False := by
    simp [SCREEN_MAIN, SCREEN_SENSORS, SCREEN_STATS]
  by_cases hm : release.mesh_initialized = true <;>
    by_cases hp : release.pins &&& ((1 <<< sw0) % 4294967296) = 0 <;>
    simp [button_interrupt, hrel, hmain, hpress, hrelease, hm, hp, hne, screen_changes,
      hello_calls, LONG_PRESS_TIMEOUT, List.count_append]

/-- C9 as amended, at a concrete input: from the board at start, with the
mesh initialized and the button pin (bit 0) in `pins`, press then release
sends exactly one hello. -/
theorem short_press_witness :
    hello_calls
        (button_interrupt 0 { level := false, pins := 1, mesh_initialized := true }
          (button_interrupt 0 { level := true, pins := 1, mesh_initialized := true }
            board_start)) = 1 :=
  (short_press 0 board_start { level := true, pins := 1, mesh_initialized := true }
    { level := false, pins := 1, mesh_initialized := true } rfl rfl rfl rfl).2.2.2

/-- C10: with the recorded state released, on any screen, a press edge, then
the expiry of the long-press work, then the release edge make exactly one
screen change (to the next screen, Main after Stats) and no `mesh_send_hello`
call: the handler `long_press` resets `pressed`, so the release edge finds
the level equal to the recorded state and the callback returns at once. -/
theorem long_press_then_release (sw0 : Nat) (b : Board) (press release : ButtonInput)
    (hrel : b.pressed = false)
    (hpress : press.level = true) (hrelease : release.level = false) :
    screen_changes
        (button_interrupt sw0 release (long_press_work_expire (button_interrupt sw0 press b)))
      = screen_changes b + 1
    ∧ hello_calls
        (button_interrupt sw0 release (long_press_work_expire (button_interrupt sw0 press b)))
      = hello_calls b
    ∧ (button_interrupt sw0 release (long_press_work_expire (button_interrupt sw0 press b))).screen_id
      = (b.screen_id + 1) % SCREEN_LAST
    ∧ (b.screen_id = SCREEN_STATS →
        (button_interrupt sw0 release
          (long_press_work_expire (button_interrupt sw0 press b))).screen_id = SCREEN_MAIN)
    ∧ (long_press_work_expire (button_interrupt sw0 press b)).pressed = false
    ∧ button_interrupt sw0 release (long_press_work_expire (button_interrupt sw0 press b))
      = long_press_work_expire (button_interrupt sw0 press b) := by
  have e1 : button_interrupt sw0 press b =
      { b with pressed := true, calls := b.calls ++ [.printk_button true],
               long_press_work := some LONG_PRESS_TIMEOUT } := by
    simp [button_interrupt, hrel, hpress]
  have e2 : long_press_work_expire (button_interrupt sw0 press b) =
      { b with pressed := false,
               screen_id := ((b.screen_id + 1) % SCREEN_LAST) % 2 ^ 8,
               calls := b.calls ++ [.printk_button true] ++
                 [.printk_change_screen (((b.screen_id + 1) % SCREEN_LAST) % 2 ^ 8)],
               long_press_work := none, epd_work := some .K_NO_WAIT } := by
    rw [e1]; rfl
  have e3 : button_interrupt sw0 release (long_press_work_expire (button_interrupt sw0 press b))
      = long_press_work_expire (button_interrupt sw0 press b) := by
    rw [e2]; simp [button_interrupt, hrelease]
  have hmod : ((b.screen_id + 1) % SCREEN_LAST) % 2 ^ 8 = (b.screen_id + 1) % SCREEN_LAST := by
    unfold SCREEN_LAST; omega
  rw [e3]
  refine ⟨?_, ?_, ?_, ?_, ?_, rfl⟩
  · rw [e2]; simp [screen_changes, List.filter_append]
  · rw [e2]; simp [hello_calls, List.count_append]
  · rw [e2]; exact hmod
  · intro hs; rw [e2]; simp [hs, SCREEN_STATS, SCREEN_LAST, SCREEN_MAIN]
  · rw [e2]

/-- C10 at a concrete input: on Stats, press, expiry and release lead to Main
with one screen change and no hello. -/
theorem long_press_then_release_witness :
    (button_interrupt 0 { level := false, pins := 1, mesh_initialized := true }
      (long_press_work_expire
        (button_interrupt 0 { level := true, pins := 1, mesh_initialized := true }
          { board_start with screen_id := SCREEN_STATS }))).screen_id = SCREEN_MAIN :=
  (long_press_then_release 0 { board_start with screen_id := SCREEN_STATS }
    { level := true, pins := 1, mesh_initialized := true }
    { level := false, pins := 1, mesh_initialized := true } rfl rfl rfl).2.2.2.1 rfl

/-! ## C7: line measuring -/

theorem get_len_loop_stop (cols : Nat) (text : List Nat) (k : Nat)
    (hk : text.getD k 0 = 10 ∨ text.getD k 0 = 0) (fuel i : Nat) (space : Option Nat)
    (hik : i ≤ k) (hkf : k < i + fuel)
    (hbefore : ∀ j, i ≤ j → j < k → ¬ (text.getD j 0 = 10 ∨ text.getD j 0 = 0)) :
    get_len_loop cols text fuel i space = k := by
  induction fuel generalizing i space with
  | zero => omega
  | succ fuel ih =>
    rw [get_len_loop]
    by_cases hi : i = k
    · subst hi; rw [if_pos hk]
    · have hlt : i < k := by omega
      rw [if_neg (hbefore i (le_refl i) hlt)]
      have hb : ∀ j, i + 1 ≤ j → j < k → ¬ (text.getD j 0 = 10 ∨ text.getD j 0 = 0) :=
        fun j h1 h2 => hbefore j (by omega) h2
      split_ifs
      · exact ih (i + 1) (some i) (by omega) (by omega) hb
      · exact ih (i + 1) space (by omega) (by omega) hb

theorem get_len_loop_plain (cols : Nat) (text : List Nat) (fuel i : Nat) (space : Option Nat)
    (hplain : ∀ j, i ≤ j → j < i + fuel →
      ¬ (text.getD j 0 = 10 ∨ text.getD j 0 = 0) ∧ text.getD j 0 ≠ 32) :
    get_len_loop cols text fuel i space = (match space with | some s => s | none => cols) := by
  induction fuel generalizing i with
  | zero => cases space <;> rfl
  | succ fuel ih =>
    rw [get_len_loop, if_neg (hplain i (le_refl i) (by omega)).1,
      if_neg (hplain i (le_refl i) (by omega)).2]
    exact ih (i + 1) (fun j h1 h2 => hplain j (by omega) (by omega))

theorem get_len_loop_space (cols : Nat) (text : List Nat) (k : Nat) (hk : text.getD k 0 = 32)
    (fuel i : Nat) (space : Option Nat) (hik : i ≤ k) (hkf : k < i + fuel)
    (hnoterm : ∀ j, i ≤ j → j < i + fuel → ¬ (text.getD j 0 = 10 ∨ text.getD j 0 = 0))
    (hlast : ∀ j, k < j → j < i + fuel → text.getD j 0 ≠ 32) :
    get_len_loop cols text fuel i space = k := by
  induction fuel generalizing i space with
  | zero => omega
  | succ fuel ih =>
    rw [get_len_loop, if_neg (hnoterm i (le_refl i) (by omega))]
    by_cases hi : i = k
    · subst hi
      rw [if_pos hk]
      exact get_len_loop_plain cols text fuel (i + 1) (some i)
        (fun j h1 h2 => ⟨hnoterm j (by omega) (by omega), hlast j (by omega) (by omega)⟩)
    · have hn : ∀ j, i + 1 ≤ j → j < i + 1 + fuel →
          ¬ (text.getD j 0 = 10 ∨ text.getD j 0 = 0) :=
        fun j h1 h2 => hnoterm j (by omega) (by omega)
      have hl : ∀ j, k < j → j < i + 1 + fuel → text.getD j 0 ≠ 32 :=
        fun j h1 h2 => hlast j h1 (by omega)
      split_ifs
      · exact ih (i + 1) (some i) (by omega) (by omega) hn hl
      · exact ih (i + 1) space (by omega) (by omega) hn hl

/-- C7: for a column limit `cols` (12, 16 and 25 for the three fonts) the
scan of `get_len` returns the index of the first newline or terminator when
one stands at an index `≤ cols`; otherwise the index of the last space among
the indices `0 .. cols` when there is one; otherwise `cols`.  The text
"HELLO WORLD FOO" measures 11 with 12 columns and 5 with 5 columns. -/
theorem get_len_result (cols : Nat) (text : List Nat) :
    (∀ k, k ≤ cols → (text.getD k 0 = 10 ∨ text.getD k 0 = 0) →
        (∀ j, j < k → ¬ (text.getD j 0 = 10 ∨ text.getD j 0 = 0)) →
        get_len_cols cols text = k)
    ∧ ((∀ j, j ≤ cols → ¬ (text.getD j 0 = 10 ∨ text.getD j 0 = 0)) →
        ∀ k, k ≤ cols → text.getD k 0 = 32 →
          (∀ j, k < j → j ≤ cols → text.getD j 0 ≠ 32) →
          get_len_cols cols text = k)
    ∧ ((∀ j, j ≤ cols → ¬ (text.getD j 0 = 10 ∨ text.getD j 0 = 0) ∧ text.getD j 0 ≠ 32) →
        get_len_cols cols text = cols)
    ∧ (∀ font, get_len font text = get_len_cols (fonts_columns font) text)
    ∧ fonts_columns .FONT_BIG = 12 ∧ fonts_columns .FONT_MEDIUM = 16
    ∧ fonts_columns .FONT_SMALL = 25
    ∧ get_len .FONT_BIG (bytes "HELLO WORLD FOO") = 11
    ∧ get_len_cols 5 (bytes "HELLO WORLD FOO") = 5 := by
  refine ⟨?_, ?_, ?_, fun _ => rfl, rfl, rfl, rfl, by decide, by decide⟩
  · intro k hk hterm hbefore
    exact get_len_loop_stop cols text k hterm (cols + 1) 0 none (Nat.zero_le k) (by omega)
      (fun j _ h => hbefore j h)
  · intro hnoterm k hk hspace hlast
    exact get_len_loop_space cols text k hspace (cols + 1) 0 none (Nat.zero_le k) (by omega)
      (fun j _ h => hnoterm j (by omega)) (fun j h1 h2 => hlast j h1 (by omega))
  · intro hplain
    exact get_len_loop_plain cols text (cols + 1) 0 none (fun j _ h => hplain j (by omega))

/-- C7 at concrete inputs: "HELLO WORLD FOO" has no newline or terminator at
the indices `0 .. 12` and its last space there is at index 11; "HI" has its
terminator at index 2; "ABCDEFGHIJKLMNOP" has neither a space nor an end at
the indices `0 .. 12`. -/
theorem get_len_result_witness :
    get_len_cols 12 (bytes "HELLO WORLD FOO") = 11
    ∧ get_len_cols 12 (bytes "HI") = 2
    ∧ get_len_cols 12 (bytes "ABCDEFGHIJKLMNOP") = 12 :=
  ⟨(get_len_result 12 (bytes "HELLO WORLD FOO")).2.1 (by decide) 11 (by decide) (by decide)
      (fun j h1 h2 => by
        have hj : j = 12 := by omega
        subst hj; decide),
    (get_len_result 12 (bytes "HI")).1 2 (by decide) (by decide) (by decide),
    (get_len_result 12 (bytes "ABCDEFGHIJKLMNOP")).2.2.1 (by decide)⟩

/-! ## C1: occupancy and counter bounds -/

theorem add_hello_loop_addrs (a : Nat) (name : List Nat) (l : List Stat) (i c : Nat) :
    (add_hello_loop a name i c l).1.map Stat.addr = track a (l.map Stat.addr)
    ∧ (add_hello_loop a name i c l).2.1
        = if takes_slot a (l.map Stat.addr) then (c + 1) % 2 ^ 32 else c := by
  induction l generalizing i with
  | nil => simp [add_hello_loop, track, takes_slot]
  | cons x l ih =>
    by_cases h0 : x.addr = 0
    · simp [add_hello_loop, track, takes_slot, h0]
    · by_cases ha : x.addr = a
      · subst ha
        by_cases hs : x.hello_count < 0xffff <;>
          simp [add_hello_loop, track, takes_slot, h0, hs]
      · simp [add_hello_loop, track, takes_slot, h0, ha, ih (i + 1)]

theorem add_heartbeat_loop_addrs (a hops : Nat) (l : List Stat) (i c : Nat) :
    (add_heartbeat_loop a hops i c l).1.map Stat.addr = track a (l.map Stat.addr)
    ∧ (add_heartbeat_loop a hops i c l).2.1
        = if takes_slot a (l.map Stat.addr) then (c + 1) % 2 ^ 32 else c := by
  induction l generalizing i with
  | nil => simp [add_heartbeat_loop, track, takes_slot]
  | cons x l ih =>
    by_cases h0 : x.addr = 0
    · simp [add_heartbeat_loop, track, takes_slot, h0]
    · by_cases ha : x.addr = a
      · subst ha
        by_cases h1 : hops < x.min_hops <;> by_cases h2 : hops > x.max_hops <;>
          by_cases hs : x.heartbeat_count < 0xffff <;>
          simp [add_heartbeat_loop, track, takes_slot, h0, h1, h2, hs]
      · simp [add_heartbeat_loop, track, takes_slot, h0, ha, ih (i + 1)]

theorem add_hello_loop_bounded (a : Nat) (name : List Nat) (l : List Stat) (i c : Nat)
    (hl : Bounded l) : Bounded (add_hello_loop a name i c l).1 := by
  induction l generalizing i with
  | nil => simpa [add_hello_loop] using hl
  | cons x l ih =>
    have hx := hl x (List.mem_cons_self _ _)
    have hrest : Bounded l := fun y hy => hl y (List.mem_cons_of_mem _ hy)
    rw [add_hello_loop]
    split_ifs with h0 ha hs
    · intro y hy
      rcases List.mem_cons.mp hy with rfl | hy
      · exact ⟨by simp, hx.2⟩
      · exact hrest y hy
    · intro y hy
      rcases List.mem_cons.mp hy with rfl | hy
      · exact ⟨by simp only []; change (x.hello_count + 1) % 65536 ≤ 65535; omega, hx.2⟩
      · exact hrest y hy
    · intro y hy
      rcases List.mem_cons.mp hy with rfl | hy
      · exact hx
      · exact hrest y hy
    · intro y hy
      rcases List.mem_cons.mp hy with rfl | hy
      · exact hx
      · exact ih (i + 1) hrest y hy

theorem add_heartbeat_loop_bounded (a hops : Nat) (l : List Stat) (i c : Nat)
    (hl : Bounded l) : Bounded (add_heartbeat_loop a hops i c l).1 := by
  induction l generalizing i with
  | nil => simpa [add_heartbeat_loop] using hl
  | cons x l ih =>
    have hx := hl x (List.mem_cons_self _ _)
    have hrest : Bounded l := fun y hy => hl y (List.mem_cons_of_mem _ hy)
    by_cases h0 : x.addr = 0
    · intro y hy
      simp only [add_heartbeat_loop, if_pos h0, List.mem_cons] at hy
      rcases hy with rfl | hy
      · exact ⟨hx.1, by simp⟩
      · exact hrest y hy
    · by_cases ha : x.addr = a
      · by_cases h1 : hops < x.min_hops <;> by_cases h2 : hops > x.max_hops <;>
          by_cases hs : x.heartbeat_count < 0xffff <;>
          · intro y hy
            simp only [add_heartbeat_loop, if_neg h0, if_pos ha, h1, h2, hs, if_true, if_false,
              List.mem_cons] at hy
            rcases hy with rfl | hy
            · refine ⟨hx.1, ?_⟩
              first
                | exact hx.2
                | (show (x.heartbeat_count + 1) % 2 ^ 16 ≤ 65535
                   have := Nat.mod_lt (x.heartbeat_count + 1) (by norm_num : 2 ^ 16 > 0)
                   omega)
            · exact hrest y hy
      · intro y hy
        simp only [add_heartbeat_loop, if_neg h0, if_neg ha, List.mem_cons] at hy
        rcases hy with rfl | hy
        · exact hx
        · exact ih (i + 1) hrest y hy

theorem step_bounded (t : Table) (e : Event) (ht : Bounded t.stats) :
    Bounded (step t e).stats := by
  cases e with
  | hello a n => exact add_hello_loop_bounded a n t.stats 0 t.stat_count ht
  | heartbeat a h => exact add_heartbeat_loop_bounded a h t.stats 0 t.stat_count ht

theorem step_addrs (t : Table) (e : Event) :
    (step t e).stats.map Stat.addr = track e.addr (t.stats.map Stat.addr)
    ∧ (step t e).stat_count
        = if takes_slot e.addr (t.stats.map Stat.addr) then (t.stat_count + 1) % 2 ^ 32
          else t.stat_count := by
  cases e with
  | hello a n => exact add_hello_loop_addrs a n t.stats 0 t.stat_count
  | heartbeat a h => exact add_heartbeat_loop_addrs a h t.stats 0 t.stat_count

theorem track_mem (a : Nat) (seen r : List Nat) (h0 : 0 ∉ seen) (ha : a ∈ seen) :
    track a (seen ++ r) = seen ++ r ∧ takes_slot a (seen ++ r) = false := by
  induction seen with
  | nil => cases ha
  | cons x seen ih =>
    have hx0 : x ≠ 0 := fun h => h0 (h ▸ List.mem_cons_self _ _)
    have h0s : 0 ∉ seen := fun h => h0 (List.mem_cons_of_mem _ h)
    by_cases hxa : x = a
    · subst hxa
      simp [track, takes_slot, hx0]
    · have has : a ∈ seen := by
        rcases List.mem_cons.mp ha with h | h
        · exact absurd h.symm hxa
        · exact h
      simp [track, takes_slot, hx0, hxa, ih h0s has]

theorem track_not_mem (a : Nat) (seen r : List Nat) (h0 : 0 ∉ seen) (ha : a ∉ seen) :
    track a (seen ++ r) = seen ++ track a r ∧ takes_slot a (seen ++ r) = takes_slot a r := by
  induction seen with
  | nil => simp
  | cons x seen ih =>
    have hx0 : x ≠ 0 := fun h => h0 (h ▸ List.mem_cons_self _ _)
    have h0s : 0 ∉ seen := fun h => h0 (List.mem_cons_of_mem _ h)
    have hxa : x ≠ a := fun h => ha (h ▸ List.mem_cons_self _ _)
    have has : a ∉ seen := fun h => ha (List.mem_cons_of_mem _ h)
    simp [track, takes_slot, hx0, hxa, ih h0s has]

theorem track_empty (a k : Nat) :
    track a (List.replicate k 0) = (if k = 0 then [] else a :: List.replicate (k - 1) 0)
    ∧ takes_slot a (List.replicate k 0) = decide (k ≠ 0) := by
  cases k with
  | zero => simp [track, takes_slot]
  | succ k => simp [List.replicate_succ, track, takes_slot]

theorem shape_step (t : Table) (seen : List Nat) (e : Event) (h : Shape t seen) :
    Shape (step t e) (see seen e.addr)
    ∧ (e.addr ≠ 0 → t.stat_count = seen.length →
        (step t e).stat_count = (see seen e.addr).length) := by
  obtain ⟨hmap, hlen, hnd, h0⟩ := h
  have hs := step_addrs t e
  rw [hmap] at hs
  by_cases hmem : e.addr ∈ seen
  · have hsee : see seen e.addr = seen := by simp [see, hmem]
    have ht := track_mem e.addr seen (List.replicate (STAT_COUNT - seen.length) 0) h0 hmem
    rw [ht.1, ht.2] at hs
    rw [hsee]
    exact ⟨⟨hs.1, hlen, hnd, h0⟩, fun _ hc => by rw [hs.2]; simpa using hc⟩
  · have ht := track_not_mem e.addr seen (List.replicate (STAT_COUNT - seen.length) 0) h0 hmem
    have hk := track_empty e.addr (STAT_COUNT - seen.length)
    rw [ht.1, ht.2, hk.1, hk.2] at hs
    by_cases hroom : STAT_COUNT ≤ seen.length
    · have hsee : see seen e.addr = seen := by simp [see, hroom]
      have hz : STAT_COUNT - seen.length = 0 := by omega
      rw [hsee]
      rw [hz] at hs
      simp only [if_true, ne_eq, not_true_eq_false, decide_False, Bool.false_eq_true,
        if_false] at hs
      refine ⟨⟨?_, hlen, hnd, h0⟩, fun _ hc => by rw [hs.2]; exact hc⟩
      rw [hs.1, hz]; simp
    · have hz : STAT_COUNT - seen.length ≠ 0 := by omega
      simp only [if_neg hz, ne_eq, hz, not_false_eq_true, decide_True, if_true, if_false] at hs
      by_cases ha0 : e.addr = 0
      · have hsee : see seen e.addr = seen := by simp [see, ha0]
        rw [hsee]
        refine ⟨⟨?_, hlen, hnd, h0⟩, fun hne _ => absurd ha0 hne⟩
        rw [hs.1, ha0]
        congr 1
        have hk : STAT_COUNT - seen.length = (STAT_COUNT - seen.length - 1) + 1 := by omega
        conv_rhs => rw [hk, List.replicate_succ]
      · have hsee : see seen e.addr = seen ++ [e.addr] := by simp [see, ha0, hmem, hroom]
        rw [hsee]
        refine ⟨⟨?_, ?_, ?_, ?_⟩, fun _ hc => ?_⟩
        · rw [hs.1]
          simp only [List.length_append, List.length_singleton, List.append_assoc,
            List.singleton_append]
          congr 2
        · simp only [List.length_append, List.length_singleton]; omega
        · exact List.Nodup.append hnd (List.nodup_singleton _)
            (by
              intro b hb hb2
              rw [List.mem_singleton] at hb2
              exact hmem (hb2 ▸ hb))
        · simp only [List.mem_append, List.mem_singleton, not_or]
          exact ⟨h0, fun h => ha0 h.symm⟩
        · rw [hs.2, hc]
          simp only [List.length_append, List.length_singleton]
          have : seen.length < STAT_COUNT := by omega
          unfold STAT_COUNT at this
          omega

theorem shape_init (ttl_max : Nat) : Shape (table_init ttl_max) [] := by
  refine ⟨?_, Nat.zero_le _, List.nodup_nil, List.not_mem_nil 0⟩
  simp [table_init, stat_init, List.map_replicate]

theorem shape_run (t : Table) (seen : List Nat) (evs : List Event) (h : Shape t seen) :
    Shape (run t evs) (see_all seen evs) := by
  induction evs generalizing t seen with
  | nil => exact h
  | cons e evs ih => exact ih (step t e) (see seen e.addr) (shape_step t seen e h).1

theorem count_run (t : Table) (seen : List Nat) (evs : List Event) (h : Shape t seen)
    (hc : t.stat_count = seen.length) (hnz : ∀ e ∈ evs, e.addr ≠ 0) :
    (run t evs).stat_count = (see_all seen evs).length := by
  induction evs generalizing t seen with
  | nil => exact hc
  | cons e evs ih =>
    have hs := shape_step t seen e h
    exact ih (step t e) (see seen e.addr) hs.1 (hs.2 (hnz e (List.mem_cons_self _ _)) hc)
      (fun x hx => hnz x (List.mem_cons_of_mem _ hx))

theorem bounded_run (t : Table) (evs : List Event) (h : Bounded t.stats) :
    Bounded (run t evs).stats := by
  induction evs generalizing t with
  | nil => exact h
  | cons e evs ih => exact ih (step t e) (step_bounded t e h)

theorem see_all_toFinset (seen : List Nat) (evs : List Event) (hnd : seen.Nodup)
    (hnz : ∀ e ∈ evs, e.addr ≠ 0)
    (hcap : (seen.toFinset ∪ (evs.map Event.addr).toFinset).card ≤ STAT_COUNT) :
    (see_all seen evs).toFinset = seen.toFinset ∪ (evs.map Event.addr).toFinset := by
  induction evs generalizing seen with
  | nil => simp [see_all]
  | cons e evs ih =>
    have hne := hnz e (List.mem_cons_self _ _)
    have hrest : ∀ x ∈ evs, x.addr ≠ 0 := fun x hx => hnz x (List.mem_cons_of_mem _ hx)
    have hunion : seen.toFinset ∪ ((e :: evs).map Event.addr).toFinset
        = insert e.addr seen.toFinset ∪ (evs.map Event.addr).toFinset := by
      ext x
      simp only [List.map_cons, List.toFinset_cons, Finset.mem_union, Finset.mem_insert,
        List.mem_toFinset]
      tauto
    rw [hunion] at hcap ⊢
    show (see_all (see seen e.addr) evs).toFinset = _
    by_cases hmem : e.addr ∈ seen
    · have hsee : see seen e.addr = seen := by simp [see, hmem]
      have hins : insert e.addr seen.toFinset = seen.toFinset :=
        Finset.insert_eq_of_mem (List.mem_toFinset.mpr hmem)
      rw [hsee, hins]
      rw [hins] at hcap
      exact ih seen hnd hrest hcap
    · have hcard : (insert e.addr seen.toFinset).card = seen.length + 1 := by
        rw [Finset.card_insert_of_not_mem (fun h => hmem (List.mem_toFinset.mp h)),
          List.toFinset_card_of_nodup hnd]
      have hle : (insert e.addr seen.toFinset).card ≤ STAT_COUNT :=
        le_trans (Finset.card_le_card Finset.subset_union_left) hcap
      have hroom : ¬ STAT_COUNT ≤ seen.length := by omega
      have hsee : see seen e.addr = seen ++ [e.addr] := by simp [see, hne, hmem, hroom]
      have hnd2 : (seen ++ [e.addr]).Nodup :=
        List.Nodup.append hnd (List.nodup_singleton _) (by
          intro b hb hb2
          rw [List.mem_singleton] at hb2
          exact hmem (hb2 ▸ hb))
      have hfin : (seen ++ [e.addr]).toFinset = insert e.addr seen.toFinset := by
        ext x
        simp only [List.toFinset_append, List.toFinset_cons, List.toFinset_nil,
          Finset.mem_union, Finset.mem_insert, List.mem_toFinset, Finset.not_mem_empty, or_false]
        tauto
      rw [hsee]
      rw [← hfin] at hcap ⊢
      exact ih (seen ++ [e.addr]) hnd2 hrest hcap

/-- C1: after any sequence of `add_hello` / `add_heartbeat` calls on the
initial table whose addresses are all non-zero and take at most `STAT_COUNT`
(128) distinct values, `stat_count` is the number of distinct addresses of the
sequence, and every `hello_count` and `heartbeat_count` is at most 65535. -/
theorem occupancy_counts_distinct (ttl_max : Nat) (evs : List Event)
    (hnz : ∀ e ∈ evs, e.addr ≠ 0)
    (hcap : (evs.map Event.addr).dedup.length ≤ STAT_COUNT) :
    (run (table_init ttl_max) evs).stat_count = (evs.map Event.addr).dedup.length
    ∧ ∀ s ∈ (run (table_init ttl_max) evs).stats,
        s.hello_count ≤ 65535 ∧ s.heartbeat_count ≤ 65535 := by
  constructor
  · have hshape := shape_run (table_init ttl_max) [] evs (shape_init ttl_max)
    have hcount := count_run (table_init ttl_max) [] evs (shape_init ttl_max) rfl hnz
    have hcap2 : (([] : List Nat).toFinset ∪ (evs.map Event.addr).toFinset).card
        ≤ STAT_COUNT := by
      simpa [List.card_toFinset] using hcap
    have hfin := see_all_toFinset [] evs List.nodup_nil hnz hcap2
    rw [hcount, ← List.toFinset_card_of_nodup hshape.2.2.1, hfin, ← List.card_toFinset]
    simp
  · apply bounded_run
    intro s hs
    simp only [table_init, List.mem_replicate] at hs
    rw [hs.2]
    simp [stat_init]

/-- C1 at a concrete input: three calls about the two peers 7 and 9 leave
`stat_count = 2`. -/
theorem occupancy_counts_distinct_witness :
    (run (table_init 127) [.hello 7 (bytes "A"), .heartbeat 9 2, .hello 9 (bytes "B")]).stat_count
      = 2 :=
  (occupancy_counts_distinct 127 [.hello 7 (bytes "A"), .heartbeat 9 2, .hello 9 (bytes "B")]
    (by decide) (by decide)).1

/-! ## C5: saturating counters -/

theorem reached_scan_match (ttl_max : Nat) (evs : List Event) (pre post : List Stat) (s : Stat)
    (hsplit : (run (table_init ttl_max) evs).stats = pre ++ s :: post) (hocc : s.addr ≠ 0) :
    (∀ x ∈ pre, x.addr ≠ 0 ∧ x.addr ≠ s.addr)
    ∧ s.hello_count ≤ 65535 ∧ s.heartbeat_count ≤ 65535 := by
  have hshape := shape_run (table_init ttl_max) [] evs (shape_init ttl_max)
  have hb : Bounded (run (table_init ttl_max) evs).stats := by
    apply bounded_run
    intro x hx
    simp only [table_init, List.mem_replicate] at hx
    rw [hx.2]
    simp [stat_init]
  obtain ⟨hmap, _, hnd, h0⟩ := hshape
  rw [hsplit, List.map_append, List.map_cons] at hmap
  have hs := hb s (by rw [hsplit]; simp)
  refine ⟨?_, hs.1, hs.2⟩
  have hrep : ∀ r : List Nat, s.addr ∈ r →
      r ≠ List.replicate (STAT_COUNT - (see_all [] evs).length) 0 := by
    intro r hr heq
    rw [heq] at hr
    exact hocc (List.mem_replicate.mp hr).2
  rcases List.append_eq_append_iff.mp hmap with ⟨c, h1, h2⟩ | ⟨c, _, h2⟩
  · cases c with
    | nil =>
      exact absurd h2 (hrep _ (List.mem_cons_self _ _))
    | cons a c =>
      have ha : s.addr = a := List.head_eq_of_cons_eq h2
      subst ha
      intro x hx
      have hxm : x.addr ∈ pre.map Stat.addr := List.mem_map_of_mem _ hx
      have hxs : x.addr ∈ see_all [] evs := by rw [h1]; exact List.mem_append_left _ hxm
      refine ⟨fun h => h0 (h ▸ hxs), fun h => ?_⟩
      rw [h1] at hnd
      have hdis := (List.nodup_append.mp hnd).2.2
      exact hdis hxm (by rw [h]; exact List.mem_cons_self _ _)
  · exact absurd h2.symm (hrep _ (by simp))

/-- C5: when the scan of `add_hello` / `add_heartbeat` for `addr` stops at a
matching slot `s` (the slots `pre` before it are occupied by other peers) and
the counters of `s` are 16-bit values, `add_hello` sets the `hello_count` of
that slot to `min (old + 1) 65535`, returns `NO_UPDATE` exactly when
`old = 65535` and the slot index otherwise; `add_heartbeat` does the same
with `heartbeat_count`.  In a table reached from the initial table by any
calls this holds for every slot `s` that holds the non-zero address `addr`. -/
theorem counters_saturate :
    (∀ (t : Table) (addr : Nat) (name : List Nat) (hops : Nat) (pre post : List Stat) (s : Stat),
      t.stats = pre ++ s :: post → (∀ x ∈ pre, x.addr ≠ 0 ∧ x.addr ≠ addr) →
      s.addr ≠ 0 → s.addr = addr → s.hello_count ≤ 65535 → s.heartbeat_count ≤ 65535 →
      (((add_hello addr name t).1.stats.getD pre.length default).hello_count
          = min (s.hello_count + 1) 65535
        ∧ ((add_hello addr name t).2 = NO_UPDATE ↔ s.hello_count = 65535)
        ∧ (s.hello_count ≠ 65535 → (add_hello addr name t).2 = (pre.length : Int)))
      ∧ (((add_heartbeat addr hops t).1.stats.getD pre.length default).heartbeat_count
          = min (s.heartbeat_count + 1) 65535
        ∧ ((add_heartbeat addr hops t).2 = NO_UPDATE ↔ s.heartbeat_count = 65535)
        ∧ (s.heartbeat_count ≠ 65535 → (add_heartbeat addr hops t).2 = (pre.length : Int))))
    ∧ (∀ (ttl_max : Nat) (evs : List Event) (addr : Nat) (name : List Nat) (hops : Nat)
        (pre post : List Stat) (s : Stat),
      (run (table_init ttl_max) evs).stats = pre ++ s :: post → s.addr ≠ 0 → s.addr = addr →
      (((add_hello addr name (run (table_init ttl_max) evs)).1.stats.getD pre.length
            default).hello_count = min (s.hello_count + 1) 65535
        ∧ ((add_hello addr name (run (table_init ttl_max) evs)).2 = NO_UPDATE
            ↔ s.hello_count = 65535)
        ∧ (s.hello_count ≠ 65535 →
            (add_hello addr name (run (table_init ttl_max) evs)).2 = (pre.length : Int)))
      ∧ (((add_heartbeat addr hops (run (table_init ttl_max) evs)).1.stats.getD pre.length
            default).heartbeat_count = min (s.heartbeat_count + 1) 65535
        ∧ ((add_heartbeat addr hops (run (table_init ttl_max) evs)).2 = NO_UPDATE
            ↔ s.heartbeat_count = 65535)
        ∧ (s.heartbeat_count ≠ 65535 →
            (add_heartbeat addr hops (run (table_init ttl_max) evs)).2 = (pre.length : Int)))) := by
  have general : ∀ (t : Table) (addr : Nat) (name : List Nat) (hops : Nat)
      (pre post : List Stat) (s : Stat),
      t.stats = pre ++ s :: post → (∀ x ∈ pre, x.addr ≠ 0 ∧ x.addr ≠ addr) →
      s.addr ≠ 0 → s.addr = addr → s.hello_count ≤ 65535 → s.heartbeat_count ≤ 65535 →
      (((add_hello addr name t).1.stats.getD pre.length default).hello_count
          = min (s.hello_count + 1) 65535
        ∧ ((add_hello addr name t).2 = NO_UPDATE ↔ s.hello_count = 65535)
        ∧ (s.hello_count ≠ 65535 → (add_hello addr name t).2 = (pre.length : Int)))
      ∧ (((add_heartbeat addr hops t).1.stats.getD pre.length default).heartbeat_count
          = min (s.heartbeat_count + 1) 65535
        ∧ ((add_heartbeat addr hops t).2 = NO_UPDATE ↔ s.heartbeat_count = 65535)
        ∧ (s.heartbeat_count ≠ 65535 →
            (add_heartbeat addr hops t).2 = (pre.length : Int))) := by
    intro t addr name hops pre post s hsplit hpre hocc hmatch hhello hbeat
    have hidx : ((pre.length : Nat) : Int) ≠ NO_UPDATE := by
      unfold NO_UPDATE; omega
    constructor
    · simp only [add_hello, hsplit,
        add_hello_loop_match addr name pre post s hpre hocc hmatch 0, getD_split, Nat.zero_add]
      by_cases hsat : s.hello_count < 0xffff
      · have h1 : (s.hello_count + 1) % 2 ^ 16 = s.hello_count + 1 :=
          Nat.mod_eq_of_lt (by omega)
        have h2 : min (s.hello_count + 1) 65535 = s.hello_count + 1 := by omega
        have h3 : s.hello_count ≠ 65535 := by omega
        simp only [if_pos hsat, h1, h2]
        exact ⟨trivial, ⟨fun h => absurd h hidx, fun h => absurd h h3⟩, fun _ => trivial⟩
      · have h2 : min (s.hello_count + 1) 65535 = s.hello_count := by omega
        have h3 : s.hello_count = 65535 := by omega
        simp only [if_neg hsat, h2]
        exact ⟨trivial, ⟨fun _ => h3, fun _ => trivial⟩, fun h => absurd h3 h⟩
    · simp only [add_heartbeat, hsplit,
        add_heartbeat_loop_match addr hops pre post s hpre hocc hmatch 0, getD_split,
        Nat.zero_add]
      by_cases hsat : s.heartbeat_count < 0xffff
      · have h1 : (s.heartbeat_count + 1) % 2 ^ 16 = s.heartbeat_count + 1 :=
          Nat.mod_eq_of_lt (by omega)
        have h2 : min (s.heartbeat_count + 1) 65535 = s.heartbeat_count + 1 := by omega
        have h3 : s.heartbeat_count ≠ 65535 := by omega
        simp only [if_pos hsat, h1, h2]
        exact ⟨trivial, ⟨fun h => absurd h hidx, fun h => absurd h h3⟩, fun _ => trivial⟩
      · have h2 : min (s.heartbeat_count + 1) 65535 = s.heartbeat_count := by omega
        have h3 : s.heartbeat_count = 65535 := by omega
        simp only [if_neg hsat, h2]
        exact ⟨trivial, ⟨fun _ => h3, fun _ => trivial⟩, fun h => absurd h3 h⟩
  refine ⟨general, ?_⟩
  intro ttl_max evs addr name hops pre post s hsplit hocc hmatch
  obtain ⟨hpre, hh, hb⟩ := reached_scan_match ttl_max evs pre post s hsplit hocc
  exact general _ addr name hops pre post s hsplit (hmatch ▸ hpre) hocc hmatch hh hb

/-- C5 at concrete inputs: in `saturated_example` the peer of address `7` in
slot `1` has both counters saturated, so both calls report `NO_UPDATE` and
the counters stay at `65535`; in the table reached by one hello of peer `7`
a second hello returns slot index `0`. -/
theorem counters_saturate_witness :
    (((add_hello 7 (bytes "AB") saturated_example).1.stats.getD 1 default).hello_count = 65535
      ∧ (add_hello 7 (bytes "AB") saturated_example).2 = NO_UPDATE
      ∧ ((add_heartbeat 7 3 saturated_example).1.stats.getD 1 default).heartbeat_count = 65535
      ∧ (add_heartbeat 7 3 saturated_example).2 = NO_UPDATE)
    ∧ (add_hello 7 (bytes "AB") (run (table_init 127) [.hello 7 (bytes "AB")])).2 = 0 := by
  have h := counters_saturate.1 saturated_example 7 (bytes "AB") 3
    [{ stat_init 127 with addr := 5, hello_count := 1 }]
    (List.replicate (STAT_COUNT - 2) (stat_init 127))
    { stat_init 127 with addr := 7, hello_count := 65535, heartbeat_count := 65535 }
    rfl (by decide) (by decide) rfl (by decide) (by decide)
  have h2 := counters_saturate.2 127 [.hello 7 (bytes "AB")] 7 (bytes "AB") 3 []
    (List.replicate (STAT_COUNT - 1) (stat_init 127))
    { stat_init 127 with addr := 7, name := strncpy (List.replicate 9 0) (bytes "AB") 8,
                         hello_count := 1 }
    (by decide) (by decide) rfl
  exact ⟨⟨h.1.1, h.1.2.1.mpr rfl, h.2.1, h.2.2.1.mpr rfl⟩, h2.1.2.2 (by decide)⟩

/-! ## C2: the ranking loop -/

theorem pad_top_length (L : List Nat) (hL : L.length ≤ 4) : (pad_top L).length = 4 := by
  simp [pad_top]; omega

theorem top_insert_pad (t : Table) (stat : Stat) (i : Nat) (L : List Nat) (hL : L.length ≤ 4)
    (hstat : stat.hello_count = hello_at t i) :
    top_insert t.stats stat i 4 0 (pad_top L)
      = pad_top ((List.orderedInsert (rank_lt t) i L).take 4) := by
  have r1 : List.range 1 = [0] := rfl
  have r2 : List.range 2 = [0, 1] := rfl
  have r3 : List.range 3 = [0, 1, 2] := rfl
  have hpos : ∀ k : Nat, ¬ (Int.ofNat k < 0) := fun k => not_lt.mpr (Int.ofNat_zero_le k)
  have hpos2 : ∀ k : Nat, ¬ ((k : Int) < 0) := fun k => not_lt.mpr (Int.ofNat_zero_le k)
  have split : ∀ x y : Nat, (x < y ∧ ¬ y ≤ x) ∨ (¬ x < y ∧ y ≤ x) := fun x y => by omega
  rcases L with _ | ⟨a, _ | ⟨b, _ | ⟨c, _ | ⟨d, _ | ⟨e, L⟩⟩⟩⟩⟩
  · simp [top_insert, pad_top]
  · rcases split (t.stats[a]?.getD default).hello_count
        (t.stats[i]?.getD default).hello_count with ⟨h1, g1⟩ | ⟨h1, g1⟩ <;>
      simp [top_insert, pad_top, rank_lt, hstat, hello_at, memmove, r1, r2, r3, hpos, hpos2,
        h1, g1]
  · rcases split (t.stats[a]?.getD default).hello_count
        (t.stats[i]?.getD default).hello_count with ⟨h1, g1⟩ | ⟨h1, g1⟩ <;>
      rcases split (t.stats[b]?.getD default).hello_count
        (t.stats[i]?.getD default).hello_count with ⟨h2, g2⟩ | ⟨h2, g2⟩ <;>
      simp [top_insert, pad_top, rank_lt, hstat, hello_at, memmove, r1, r2, r3, hpos, hpos2,
        h1, g1, h2, g2]
  · rcases split (t.stats[a]?.getD default).hello_count
        (t.stats[i]?.getD default).hello_count with ⟨h1, g1⟩ | ⟨h1, g1⟩ <;>
      rcases split (t.stats[b]?.getD default).hello_count
        (t.stats[i]?.getD default).hello_count with ⟨h2, g2⟩ | ⟨h2, g2⟩ <;>
      rcases split (t.stats[c]?.getD default).hello_count
        (t.stats[i]?.getD default).hello_count with ⟨h3, g3⟩ | ⟨h3, g3⟩ <;>
      simp [top_insert, pad_top, rank_lt, hstat, hello_at, memmove, r1, r2, r3, hpos, hpos2,
        h1, g1, h2, g2, h3, g3]
  · rcases split (t.stats[a]?.getD default).hello_count
        (t.stats[i]?.getD default).hello_count with ⟨h1, g1⟩ | ⟨h1, g1⟩ <;>
      rcases split (t.stats[b]?.getD default).hello_count
        (t.stats[i]?.getD default).hello_count with ⟨h2, g2⟩ | ⟨h2, g2⟩ <;>
      rcases split (t.stats[c]?.getD default).hello_count
        (t.stats[i]?.getD default).hello_count with ⟨h3, g3⟩ | ⟨h3, g3⟩ <;>
      rcases split (t.stats[d]?.getD default).hello_count
        (t.stats[i]?.getD default).hello_count with ⟨h4, g4⟩ | ⟨h4, g4⟩ <;>
      simp [top_insert, pad_top, rank_lt, hstat, hello_at, memmove, r1, r2, r3, hpos, hpos2,
        h1, g1, h2, g2, h3, g3, h4, g4]
  · simp at hL

theorem shape_split (t : Table) (seen : List Nat) (h : Shape t seen) :
    ∃ occ emp, t.stats = occ ++ emp ∧ (∀ s ∈ occ, s.addr ≠ 0) ∧ (∀ s ∈ emp, s.addr = 0) := by
  obtain ⟨hmap, _, _, h0⟩ := h
  obtain ⟨occ, emp, hsplit, hocc, hemp⟩ := List.map_eq_append_iff.mp hmap
  refine ⟨occ, emp, hsplit, ?_, ?_⟩
  · intro s hs hs0
    apply h0
    rw [← hocc, ← hs0]
    exact List.mem_map_of_mem _ hs
  · intro s hs
    have hmem : s.addr ∈ emp.map Stat.addr := List.mem_map_of_mem _ hs
    rw [hemp] at hmem
    exact (List.mem_replicate.mp hmem).2

theorem cands_eq (occ emp : List Stat) (hocc : ∀ s ∈ occ, s.addr ≠ 0)
    (hemp : ∀ s ∈ emp, s.addr = 0) (i : Nat) :
    ((List.enumFrom i (occ ++ emp)).filter
      (fun p => decide (p.2.addr ≠ 0) && decide (0 < p.2.hello_count))).map Prod.fst
      = cands i occ := by
  induction occ generalizing i with
  | nil =>
    simp only [List.nil_append, cands]
    induction emp generalizing i with
    | nil => rfl
    | cons s emp ih =>
      have hs := hemp s (List.mem_cons_self _ _)
      simp only [List.enumFrom_cons, List.filter_cons, hs, ne_eq, not_true_eq_false,
        decide_False, Bool.false_and, Bool.false_eq_true, if_false]
      exact ih (fun x hx => hemp x (List.mem_cons_of_mem _ hx)) (i + 1)
  | cons s occ ih =>
    have hs := hocc s (List.mem_cons_self _ _)
    have hrest := ih (fun x hx => hocc x (List.mem_cons_of_mem _ hx)) (i + 1)
    by_cases hc : s.hello_count = 0
    · simp only [List.cons_append, List.enumFrom_cons, List.filter_cons, cands, hc,
        lt_self_iff_false, decide_False, Bool.and_false, Bool.false_eq_true, if_false, if_true]
      exact hrest
    · have hpos : 0 < s.hello_count := Nat.pos_of_ne_zero hc
      simp only [List.cons_append, List.enumFrom_cons, List.filter_cons, cands, hc, hs, ne_eq,
        not_false_eq_true, decide_True, hpos, Bool.and_self, if_true, if_false, List.map_cons]
      rw [hrest]

theorem cands_bounds (occ : List Stat) (i : Nat) :
    (cands i occ).Sorted (· < ·) ∧ ∀ c ∈ cands i occ, i ≤ c := by
  induction occ generalizing i with
  | nil => exact ⟨List.sorted_nil, fun c hc => by cases hc⟩
  | cons s occ ih =>
    obtain ⟨hs, hb⟩ := ih (i + 1)
    rw [cands]
    split_ifs
    · exact ⟨hs, fun c hc => by have := hb c hc; omega⟩
    · refine ⟨List.sorted_cons.mpr ⟨fun c hc => by have := hb c hc; omega, hs⟩, ?_⟩
      intro c hc
      rcases List.mem_cons.mp hc with rfl | hc
      · exact le_refl _
      · have := hb c hc; omega

theorem rank_loop_occ (t : Table) (pre occ emp : List Stat)
    (hstats : t.stats = pre ++ (occ ++ emp))
    (hocc : ∀ s ∈ occ, s.addr ≠ 0) (hemp : ∀ s ∈ emp, s.addr = 0)
    (L : List Nat) (hL : L.length ≤ 4) :
    rank_loop t.stats pre.length (occ ++ emp) (pad_top L)
      = pad_top ((cands pre.length occ).foldl
          (fun L i => (List.orderedInsert (rank_lt t) i L).take 4) L) := by
  induction occ generalizing pre L with
  | nil =>
    cases emp with
    | nil => rfl
    | cons s emp =>
      simp only [List.nil_append, rank_loop, hemp s (List.mem_cons_self _ _), if_true, cands,
        List.foldl_nil]
  | cons s occ ih =>
    have hs := hocc s (List.mem_cons_self _ _)
    have hrest : ∀ x ∈ occ, x.addr ≠ 0 := fun x hx => hocc x (List.mem_cons_of_mem _ hx)
    have hstats2 : t.stats = (pre ++ [s]) ++ (occ ++ emp) := by
      rw [hstats]; simp
    have hlen : (pre ++ [s]).length = pre.length + 1 := by simp
    have hat : s.hello_count = hello_at t pre.length := by
      unfold hello_at
      rw [hstats, List.cons_append, getD_split]
    rw [List.cons_append, rank_loop, if_neg hs, cands]
    by_cases hc : s.hello_count = 0
    · rw [if_pos hc, if_pos hc]
      have := ih (pre ++ [s]) hstats2 hrest L hL
      rw [hlen] at this
      exact this
    · rw [if_neg hc, if_neg hc, pad_top_length L hL, top_insert_pad t s pre.length L hL hat]
      have hL2 : ((List.orderedInsert (rank_lt t) pre.length L).take 4).length ≤ 4 := by
        simp
      have := ih (pre ++ [s]) hstats2 hrest _ hL2
      rw [hlen] at this
      rw [List.foldl_cons]
      exact this

theorem take_cons_take (n : Nat) (x : Nat) (l : List Nat) :
    (x :: l.take n).take n = (x :: l).take n := by
  cases n with
  | zero => rfl
  | succ m =>
    simp only [List.take_succ_cons, List.take_take]
    congr 2
    omega

theorem take_orderedInsert (r : Nat → Nat → Prop) [DecidableRel r] (a : Nat) (L : List Nat)
    (n : Nat) :
    ((L.take n).orderedInsert r a).take n = (L.orderedInsert r a).take n := by
  induction L generalizing n with
  | nil => simp
  | cons b L ih =>
    cases n with
    | zero => simp
    | succ m =>
      by_cases h : r a b
      · simp only [List.take_succ_cons, List.orderedInsert, if_pos h]
        congr 1
        exact take_cons_take m b L
      · simp only [List.take_succ_cons, List.orderedInsert, if_neg h]
        congr 1
        exact ih m

theorem fold_take (r : Nat → Nat → Prop) [DecidableRel r] (C L : List Nat) :
    C.foldl (fun L i => (L.orderedInsert r i).take 4) (L.take 4)
      = (C.foldl (fun L i => L.orderedInsert r i) L).take 4 := by
  induction C generalizing L with
  | nil => rfl
  | cons c C ih =>
    simp only [List.foldl_cons]
    rw [take_orderedInsert r c L 4]
    exact ih (L.orderedInsert r c)

theorem orderedInsert_rank (t : Table) (i : Nat) (L : List Nat) (hL : ∀ b ∈ L, b < i) :
    L.orderedInsert (rank_lt t) i = L.orderedInsert (rank_le t) i := by
  induction L with
  | nil => rfl
  | cons b L ih =>
    have hb := hL b (List.mem_cons_self _ _)
    have hiff : rank_lt t i b ↔ rank_le t i b := by
      unfold rank_lt rank_le
      constructor
      · intro h; exact Or.inl h
      · rintro (h | ⟨_, h⟩)
        · exact h
        · omega
    by_cases h : rank_lt t i b
    · simp only [List.orderedInsert, if_pos h, if_pos (hiff.mp h)]
    · simp only [List.orderedInsert, if_neg h, if_neg (fun h2 => h (hiff.mpr h2))]
      rw [ih (fun x hx => hL x (List.mem_cons_of_mem _ hx))]

theorem rank_le_total (t : Table) : IsTotal Nat (rank_le t) :=
  ⟨fun a b => by unfold rank_le; omega⟩

theorem rank_le_trans (t : Table) : IsTrans Nat (rank_le t) :=
  ⟨fun a b c => by unfold rank_le; omega⟩

theorem rank_le_antisymm (t : Table) : IsAntisymm Nat (rank_le t) :=
  ⟨fun a b => by unfold rank_le; omega⟩

theorem fold_sorted (t : Table) (C L : List Nat) (hC : C.Sorted (· < ·))
    (hLC : ∀ b ∈ L, ∀ c ∈ C, b < c) (hL : L.Sorted (rank_le t)) :
    (C.foldl (fun L i => L.orderedInsert (rank_lt t) i) L).Sorted (rank_le t)
    ∧ List.Perm (C.foldl (fun L i => L.orderedInsert (rank_lt t) i) L) (L ++ C) := by
  haveI := rank_le_total t
  haveI := rank_le_trans t
  induction C generalizing L with
  | nil => exact ⟨hL, by simp⟩
  | cons c C ih =>
    have hc : ∀ b ∈ L, b < c := fun b hb => hLC b hb c (List.mem_cons_self _ _)
    have hcC : ∀ x ∈ C, c < x := List.rel_of_sorted_cons hC
    simp only [List.foldl_cons]
    rw [orderedInsert_rank t c L hc]
    have hL2 : (L.orderedInsert (rank_le t) c).Sorted (rank_le t) := hL.orderedInsert c L
    have hLC2 : ∀ b ∈ L.orderedInsert (rank_le t) c, ∀ x ∈ C, b < x := by
      intro b hb x hx
      rcases (List.mem_orderedInsert (rank_le t)).mp hb with rfl | hb
      · exact hcC x hx
      · exact hLC b hb x (List.mem_cons_of_mem _ hx)
    obtain ⟨hs, hp⟩ := ih (L.orderedInsert (rank_le t) c) hC.of_cons hLC2 hL2
    refine ⟨hs, hp.trans ?_⟩
    have h1 : List.Perm (L.orderedInsert (rank_le t) c ++ C) ((c :: L) ++ C) :=
      List.Perm.append_right C (List.perm_orderedInsert (rank_le t) c L)
    have h2 : List.Perm (L ++ c :: C) (c :: (L ++ C)) := List.perm_middle
    exact h1.trans (by simpa using h2.symm)

theorem fold_eq_sort (t : Table) (C : List Nat) (hC : C.Sorted (· < ·)) :
    C.foldl (fun L i => L.orderedInsert (rank_lt t) i) [] = C.insertionSort (rank_le t) := by
  haveI := rank_le_total t
  haveI := rank_le_trans t
  haveI := rank_le_antisymm t
  obtain ⟨hs, hp⟩ := fold_sorted t C [] hC (fun b hb => by cases hb) List.sorted_nil
  exact List.eq_of_perm_of_sorted
    (hp.trans (by simpa using (List.perm_insertionSort (rank_le t) C).symm)) hs
    (List.sorted_insertionSort (rank_le t) C)

/-- C2: on every table reached from the initial table by `add_hello` /
`add_heartbeat` calls (of any addresses), the array `top` computed by the
ranking loop of `show_statistics` is the list of the first four slot indices
of occupied peers with `hello_count > 0` sorted by `hello_count` descending,
ties in increasing slot order, padded with `-1`; for the hello counts
`[5, 3, 3, 8, 0, 1]` at slots `0 .. 5` it is `[3, 0, 1, 2]`. -/
theorem ranking_is_stable_top4 :
    (∀ (ttl_max : Nat) (evs : List Event),
      show_statistics_top (run (table_init ttl_max) evs)
        = top4_spec (run (table_init ttl_max) evs))
    ∧ ranking_example.stats.map Stat.hello_count
        = [5, 3, 3, 8, 0, 1] ++ List.replicate (STAT_COUNT - 6) 0
    ∧ show_statistics_top ranking_example = [3, 0, 1, 2]
    ∧ top4_spec ranking_example = [3, 0, 1, 2] := by
  refine ⟨?_, by decide, by decide, by decide⟩
  intro ttl_max evs
  have hshape := shape_run (table_init ttl_max) [] evs (shape_init ttl_max)
  obtain ⟨occ, emp, hsplit, hocc, hemp⟩ := shape_split _ _ hshape
  have hloop := rank_loop_occ (run (table_init ttl_max) evs) [] occ emp
    (by simpa using hsplit) hocc hemp [] (by simp)
  rw [← hsplit] at hloop
  have hcands : ranked_candidates (run (table_init ttl_max) evs) = cands 0 occ := by
    unfold ranked_candidates
    rw [hsplit]
    exact cands_eq occ emp hocc hemp 0
  have hfold := fold_take (rank_lt (run (table_init ttl_max) evs)) (cands 0 occ) []
  have hsort := fold_eq_sort (run (table_init ttl_max) evs) (cands 0 occ) (cands_bounds occ 0).1
  unfold show_statistics_top top4_spec ranked_slots
  rw [hcands]
  simp only [List.length_nil] at hloop
  have hpad : pad_top [] = [-1, -1, -1, -1] := rfl
  rw [hpad] at hloop
  rw [hloop]
  simp only [List.take_nil] at hfold
  rw [hfold, hsort]
  unfold pad_top
  congr 1
  simp only [List.length_take]
  congr 1
  omega

/-! ## C11, C20: the LED sequencer -/

/-- C11, the behaviour of the code at the failing input: after one trigger
from idle the work `led_timer` expires 22 times; the first 21 expiries light
an LED (LED 0 six times, the others five times: the counter values
`0 .. 20` all pass the test `led_cntr > 20`), the 22nd one lights none and
leaves the sequencer halted with every LED off and the counter at 0. -/
theorem led_run_from_idle :
    (led_run 100 (board_blink_leds leds_start)).1.map lit
      = [[0], [1], [2], [3], [0], [1], [2], [3], [0], [1], [2], [3], [0], [1], [2], [3],
         [0], [1], [2], [3], [0], []]
    ∧ (((led_run 100 (board_blink_leds leds_start)).1.map lit).filter
        (fun l => l != [])).length = 21
    ∧ (led_run 100 (board_blink_leds leds_start)).2 = leds_start := by
  decide

theorem led_idle_invariant (evs : List LedEvent) :
    ((led_events leds_start evs).led_timer = none →
      (led_events leds_start evs).led_cntr = 0
      ∧ (led_events leds_start evs).level = List.replicate LEDS_SIZE 1)
    ∧ (led_events leds_start evs).led_cntr ≤ LEDS_SIZE * 5 + 1 := by
  induction evs using List.reverseRecOn with
  | nil => exact ⟨fun _ => ⟨rfl, rfl⟩, by decide⟩
  | append_singleton evs e ih =>
    have hrun : led_events leds_start (evs ++ [e])
        = led_step (led_events leds_start evs) e := by
      simp [led_events]
    rw [hrun]
    generalize led_events leds_start evs = s at ih
    obtain ⟨hidle, hle⟩ := ih
    cases e with
    | trigger =>
      exact ⟨fun h => by simp [led_step, board_blink_leds] at h, hle⟩
    | tick =>
      cases ht : s.led_timer with
      | none =>
        have e1 : led_step s .tick = s := by simp [led_step, led_timer_expire, ht]
        rw [e1]
        exact ⟨hidle, hle⟩
      | some d =>
        by_cases hc : s.led_cntr > LEDS_SIZE * 5
        · have e1 : led_step s .tick
              = { led_cntr := 0, led_timer := none, level := List.replicate LEDS_SIZE 1 } := by
            simp [led_step, led_timer_expire, ht, led_timeout, hc]
          rw [e1]
          exact ⟨fun _ => ⟨rfl, rfl⟩, Nat.zero_le _⟩
        · have e1 : (led_step s .tick).led_timer = some (.K_MSEC 100)
              ∧ (led_step s .tick).led_cntr = s.led_cntr + 1 := by
            simp [led_step, led_timer_expire, ht, led_timeout, hc]
          refine ⟨fun h => ?_, ?_⟩
          · rw [e1.1] at h; cases h
          · rw [e1.2]; omega

theorem led_timeout_lit (s : Leds) :
    (lit (led_timeout s).level).length ≤ 1
    ∧ (s.led_cntr = 0 → lit (led_timeout s).level = [0]) := by
  constructor
  · by_cases hc : s.led_cntr > LEDS_SIZE * 5
    · simp [led_timeout, hc]; decide
    · have hi : s.led_cntr % LEDS_SIZE < 4 := Nat.mod_lt _ (by decide)
      simp only [led_timeout, hc, if_false]
      generalize s.led_cntr % LEDS_SIZE = i at hi
      interval_cases i <;> decide
  · intro h0
    have hc : ¬ (0 > LEDS_SIZE * 5) := by decide
    simp only [led_timeout, h0, hc, if_false]
    decide

/-- C20: in every state of the sequencer reached from the start state by
calls of `board_blink_leds` and expiries of `led_timer`, when no expiry is
pending the counter is 0 and every LED is off; after an expiry at most one
LED is lit; and the first expiry after a trigger from such an idle state
lights LED 0. -/
theorem led_sequencer_invariant (evs : List LedEvent) :
    ((led_events leds_start evs).led_timer = none →
      (led_events leds_start evs).led_cntr = 0
      ∧ (led_events leds_start evs).level = List.replicate LEDS_SIZE 1
      ∧ lit (led_events leds_start evs).level = [])
    ∧ (lit (led_events leds_start (evs ++ [.tick])).level).length ≤ 1
    ∧ ((led_events leds_start evs).led_timer = none →
      lit (led_events leds_start (evs ++ [.trigger, .tick])).level = [0]) := by
  have hinv := (led_idle_invariant evs).1
  have hrun1 : led_events leds_start (evs ++ [.tick])
      = led_timer_expire (led_events leds_start evs) := by
    simp [led_events, led_step]
  have hrun2 : led_events leds_start (evs ++ [.trigger, .tick])
      = led_timer_expire (board_blink_leds (led_events leds_start evs)) := by
    simp [led_events, led_step]
  rw [hrun1, hrun2]
  generalize led_events leds_start evs = s at hinv
  refine ⟨fun h => ?_, ?_, fun h => ?_⟩
  · obtain ⟨h1, h2⟩ := hinv h
    refine ⟨h1, h2, ?_⟩
    rw [h2]; decide
  · cases ht : s.led_timer with
    | none =>
      obtain ⟨_, h2⟩ := hinv ht
      simp only [led_timer_expire, ht, h2]
      decide
    | some d =>
      simp only [led_timer_expire, ht]
      exact (led_timeout_lit _).1
  · obtain ⟨h1, _⟩ := hinv h
    simp only [led_timer_expire, board_blink_leds]
    exact (led_timeout_lit _).2 h1

/-- C20 at a concrete input: after one trigger and 22 expiries nothing is
pending, so the counter is 0 and no LED is lit, and a new trigger starts at
LED 0. -/
theorem led_sequencer_invariant_witness :
    (led_events leds_start (.trigger :: List.replicate 22 .tick)).led_cntr = 0
    ∧ lit (led_events leds_start
        (.trigger :: List.replicate 22 .tick ++ [.trigger, .tick])).level = [0] :=
  ⟨((led_sequencer_invariant (.trigger :: List.replicate 22 .tick)).1 (by decide)).1,
    (led_sequencer_invariant (.trigger :: List.replicate 22 .tick)).2.2 (by decide)⟩

/-! ## C13, C14, C15, C16: inserting, widening, uniqueness, names -/

theorem shape_find (t : Table) (seen : List Nat) (a : Nat) (h : Shape t seen) (ha : a ∈ seen) :
    ∃ pre s post, t.stats = pre ++ s :: post ∧ s.addr = a
      ∧ (∀ x ∈ pre, x.addr ≠ 0 ∧ x.addr ≠ a) ∧ (∀ x ∈ post, x.addr ≠ a) := by
  obtain ⟨hmap, _, hnd, h0⟩ := h
  obtain ⟨s1, s2, hseen⟩ := List.append_of_mem ha
  rw [hseen, List.append_assoc] at hmap
  obtain ⟨pre, rest, hsplit, hpre, hrest⟩ := List.map_eq_append_iff.mp hmap
  rw [List.cons_append] at hrest
  obtain ⟨s, post, hrest2, hs, hpost⟩ := List.map_eq_cons_iff.mp hrest
  rw [hseen] at hnd h0
  have hnd2 := List.nodup_append.mp hnd
  have ha0 : a ≠ 0 := fun hz => h0 (by rw [hz.symm]; simp)
  refine ⟨pre, s, post, by rw [hsplit, hrest2], hs, ?_, ?_⟩
  · intro x hx
    have hxm : x.addr ∈ s1 := by rw [← hpre]; exact List.mem_map_of_mem _ hx
    exact ⟨fun hz => h0 (by rw [← hz]; exact List.mem_append_left _ hxm),
      fun hz => hnd2.2.2 hxm (by rw [hz]; exact List.mem_cons_self _ _)⟩
  · intro x hx hz
    have hxm : x.addr ∈ s2 ++ List.replicate (STAT_COUNT - (s1 ++ a :: s2).length) 0 := by
      rw [← hpost]; exact List.mem_map_of_mem _ hx
    rcases List.mem_append.mp hxm with hm | hm
    · exact (List.nodup_cons.mp hnd2.2.1).1 (hz ▸ hm)
    · exact ha0 (hz ▸ (List.mem_replicate.mp hm).2)

theorem shape_room (t : Table) (seen : List Nat) (a : Nat) (h : Shape t seen) (ha : a ∉ seen)
    (hroom : seen.length < STAT_COUNT) :
    ∃ pre s post, t.stats = pre ++ s :: post ∧ s.addr = 0
      ∧ (∀ x ∈ pre, x.addr ≠ 0 ∧ x.addr ≠ a) ∧ (∀ x ∈ post, x.addr = 0) := by
  obtain ⟨hmap, _, _, h0⟩ := h
  have hk : STAT_COUNT - seen.length = (STAT_COUNT - seen.length - 1) + 1 := by omega
  rw [hk, List.replicate_succ] at hmap
  obtain ⟨pre, rest, hsplit, hpre, hrest⟩ := List.map_eq_append_iff.mp hmap
  obtain ⟨s, post, hrest2, hs, hpost⟩ := List.map_eq_cons_iff.mp hrest
  refine ⟨pre, s, post, by rw [hsplit, hrest2], hs, ?_, ?_⟩
  · intro x hx
    have hxm : x.addr ∈ seen := by rw [← hpre]; exact List.mem_map_of_mem _ hx
    exact ⟨fun hz => h0 (hz ▸ hxm), fun hz => ha (hz ▸ hxm)⟩
  · intro x hx
    have hxm : x.addr ∈ List.replicate (STAT_COUNT - seen.length - 1) 0 := by
      rw [← hpost]; exact List.mem_map_of_mem _ hx
    exact (List.mem_replicate.mp hxm).2

theorem shape_full (t : Table) (seen : List Nat) (a : Nat) (h : Shape t seen) (ha : a ∉ seen)
    (hfull : STAT_COUNT ≤ seen.length) :
    ∀ x ∈ t.stats, x.addr ≠ 0 ∧ x.addr ≠ a := by
  obtain ⟨hmap, _, _, h0⟩ := h
  have hz : STAT_COUNT - seen.length = 0 := by omega
  rw [hz] at hmap
  simp only [List.replicate_zero, List.append_nil] at hmap
  intro x hx
  have hxm : x.addr ∈ seen := by rw [← hmap]; exact List.mem_map_of_mem _ hx
  exact ⟨fun hz => h0 (hz ▸ hxm), fun hz => ha (hz ▸ hxm)⟩

theorem add_hello_loop_pristine (ttl_max a : Nat) (name : List Nat) (ha : a ≠ 0)
    (l : List Stat) (i c : Nat) (hl : ∀ x ∈ l, x.addr = 0 → x = stat_init ttl_max) :
    ∀ x ∈ (add_hello_loop a name i c l).1, x.addr = 0 → x = stat_init ttl_max := by
  induction l generalizing i with
  | nil => simp [add_hello_loop]
  | cons y l ih =>
    have hrest : ∀ x ∈ l, x.addr = 0 → x = stat_init ttl_max :=
      fun x hx => hl x (List.mem_cons_of_mem _ hx)
    by_cases h0 : y.addr = 0
    · intro x hx hx0
      simp only [add_hello_loop, if_pos h0, List.mem_cons] at hx
      rcases hx with rfl | hx
      · exact absurd hx0 ha
      · exact hrest x hx hx0
    · by_cases hm : y.addr = a
      · by_cases hs : y.hello_count < 0xffff <;>
        · intro x hx hx0
          simp only [add_hello_loop, if_neg h0, if_pos hm, hs, if_true, if_false,
            List.mem_cons] at hx
          rcases hx with rfl | hx
          · exact absurd hx0 h0
          · exact hrest x hx hx0
      · intro x hx hx0
        simp only [add_hello_loop, if_neg h0, if_neg hm, List.mem_cons] at hx
        rcases hx with rfl | hx
        · exact absurd hx0 h0
        · exact ih (i + 1) hrest x hx hx0

theorem add_heartbeat_loop_pristine (ttl_max a hops : Nat) (ha : a ≠ 0)
    (l : List Stat) (i c : Nat) (hl : ∀ x ∈ l, x.addr = 0 → x = stat_init ttl_max) :
    ∀ x ∈ (add_heartbeat_loop a hops i c l).1, x.addr = 0 → x = stat_init ttl_max := by
  induction l generalizing i with
  | nil => simp [add_heartbeat_loop]
  | cons y l ih =>
    have hrest : ∀ x ∈ l, x.addr = 0 → x = stat_init ttl_max :=
      fun x hx => hl x (List.mem_cons_of_mem _ hx)
    by_cases h0 : y.addr = 0
    · intro x hx hx0
      simp only [add_heartbeat_loop, if_pos h0, List.mem_cons] at hx
      rcases hx with rfl | hx
      · exact absurd hx0 ha
      · exact hrest x hx hx0
    · by_cases hm : y.addr = a
      · by_cases h1 : hops < y.min_hops <;> by_cases h2 : hops > y.max_hops <;>
          by_cases hs : y.heartbeat_count < 0xffff <;>
        · intro x hx hx0
          simp only [add_heartbeat_loop, if_neg h0, if_pos hm, h1, h2, hs, if_true, if_false,
            List.mem_cons] at hx
          rcases hx with rfl | hx
          · exact absurd hx0 h0
          · exact hrest x hx hx0
      · intro x hx hx0
        simp only [add_heartbeat_loop, if_neg h0, if_neg hm, List.mem_cons] at hx
        rcases hx with rfl | hx
        · exact absurd hx0 h0
        · exact ih (i + 1) hrest x hx hx0

theorem pristine_run (ttl_max : Nat) (t : Table) (evs : List Event)
    (hnz : ∀ e ∈ evs, e.addr ≠ 0) (ht : ∀ x ∈ t.stats, x.addr = 0 → x = stat_init ttl_max) :
    ∀ x ∈ (run t evs).stats, x.addr = 0 → x = stat_init ttl_max := by
  induction evs generalizing t with
  | nil => exact ht
  | cons e evs ih =>
    have hne := hnz e (List.mem_cons_self _ _)
    apply ih (step t e) (fun x hx => hnz x (List.mem_cons_of_mem _ hx))
    cases e with
    | hello a n => exact add_hello_loop_pristine ttl_max a n hne t.stats 0 t.stat_count ht
    | heartbeat a h =>
      exact add_heartbeat_loop_pristine ttl_max a h hne t.stats 0 t.stat_count ht

/-- C13: in a table reached from the initial table by calls with non-zero
addresses, when the slots `pre` are occupied, `s` is the first empty slot and
the non-zero `addr` matches no occupied slot, `add_hello addr name` returns
the index of `s`, turns `s` into the slot of `addr` with `hello_count = 1`,
`heartbeat_count = 0`, `min_hops = BT_MESH_TTL_MAX`, `max_hops = 0` and the
name copied by `strncpy` into the zeroed buffer, raises `stat_count` by
exactly 1 and leaves every other slot as it was. -/
theorem add_hello_inserts (ttl_max : Nat) (evs : List Event) (addr : Nat) (name : List Nat)
    (pre post : List Stat) (s : Stat)
    (hnz : ∀ e ∈ evs, e.addr ≠ 0)
    (hsplit : (run (table_init ttl_max) evs).stats = pre ++ s :: post)
    (hpre : ∀ x ∈ pre, x.addr ≠ 0) (hemp : s.addr = 0)
    (_haddr : addr ≠ 0)
    (hnew : ∀ x ∈ (run (table_init ttl_max) evs).stats, x.addr ≠ 0 → x.addr ≠ addr) :
    add_hello addr name (run (table_init ttl_max) evs) =
      ({ stats := pre ++ { addr := addr, name := strncpy (List.replicate 9 0) name 8,
                           min_hops := ttl_max, max_hops := 0, hello_count := 1,
                           heartbeat_count := 0 } :: post,
         stat_count := (run (table_init ttl_max) evs).stat_count + 1 },
        (pre.length : Int)) := by
  have hpre2 : ∀ x ∈ pre, x.addr ≠ 0 ∧ x.addr ≠ addr := fun x hx =>
    ⟨hpre x hx, hnew x (by rw [hsplit]; exact List.mem_append_left _ hx) (hpre x hx)⟩
  have hinit : ∀ x ∈ (table_init ttl_max).stats, x.addr = 0 → x = stat_init ttl_max := by
    intro x hx _
    simp only [table_init, List.mem_replicate] at hx
    exact hx.2
  have hs : s = stat_init ttl_max :=
    pristine_run ttl_max (table_init ttl_max) evs hnz hinit s (by rw [hsplit]; simp) hemp
  have hshape := shape_run (table_init ttl_max) [] evs (shape_init ttl_max)
  have hcount := count_run (table_init ttl_max) [] evs (shape_init ttl_max) rfl hnz
  have hle : (run (table_init ttl_max) evs).stat_count ≤ STAT_COUNT := by
    rw [hcount]; exact hshape.2.1
  have hmod : ((run (table_init ttl_max) evs).stat_count + 1) % 2 ^ 32
      = (run (table_init ttl_max) evs).stat_count + 1 := by
    unfold STAT_COUNT at hle
    exact Nat.mod_eq_of_lt (by omega)
  simp only [add_hello, hsplit, add_hello_loop_empty addr name pre post s hpre2 hemp 0, hmod,
    Nat.zero_add]
  rw [hs]
  rfl

set_option maxRecDepth 100000 in
/-- C13 at a concrete input: after a heartbeat of peer 9, a hello of the new
peer 7 takes slot 1 and `stat_count` becomes 2. -/
theorem add_hello_inserts_witness :
    (add_hello 7 (bytes "AB") (run (table_init 127) [.heartbeat 9 2])).2 = 1
    ∧ (add_hello 7 (bytes "AB") (run (table_init 127) [.heartbeat 9 2])).1.stat_count = 2 := by
  have h := add_hello_inserts 127 [.heartbeat 9 2] 7 (bytes "AB")
    [{ stat_init 127 with addr := 9, heartbeat_count := 1, min_hops := 2, max_hops := 2 }]
    (List.replicate (STAT_COUNT - 2) (stat_init 127)) (stat_init 127)
    (by decide) (by decide) (by decide) rfl (by decide) (by decide)
  exact ⟨by rw [h]; rfl, by rw [h]; rfl⟩

/-- C14: when the scan of `add_heartbeat addr hops` stops at a matching slot
`s` (the slots `pre` before it are occupied by other peers), the bounds of
`s` become `(hops, max)` if `hops < min`, otherwise `(min, hops)` if
`hops > max`, otherwise stay `(min, max)`; `heartbeat_count` is the only
other field of `s` that may change, and `stat_count` and every other slot
are unchanged.  In a table reached from the initial table by any calls this
holds for every slot `s` that holds the non-zero address `addr`. -/
theorem add_heartbeat_widens :
    (∀ (t : Table) (addr hops : Nat) (pre post : List Stat) (s : Stat),
      t.stats = pre ++ s :: post → (∀ x ∈ pre, x.addr ≠ 0 ∧ x.addr ≠ addr) →
      s.addr ≠ 0 → s.addr = addr →
      (add_heartbeat addr hops t).1 =
        { stats := pre ++
            { s with
                min_hops := if hops < s.min_hops then hops else s.min_hops,
                max_hops := if hops < s.min_hops then s.max_hops
                  else if hops > s.max_hops then hops else s.max_hops,
                heartbeat_count := if s.heartbeat_count < 0xffff
                  then (s.heartbeat_count + 1) % 2 ^ 16 else s.heartbeat_count } :: post,
          stat_count := t.stat_count })
    ∧ (∀ (ttl_max : Nat) (evs : List Event) (addr hops : Nat) (pre post : List Stat) (s : Stat),
      (run (table_init ttl_max) evs).stats = pre ++ s :: post → s.addr ≠ 0 → s.addr = addr →
      (add_heartbeat addr hops (run (table_init ttl_max) evs)).1 =
        { stats := pre ++
            { s with
                min_hops := if hops < s.min_hops then hops else s.min_hops,
                max_hops := if hops < s.min_hops then s.max_hops
                  else if hops > s.max_hops then hops else s.max_hops,
                heartbeat_count := if s.heartbeat_count < 0xffff
                  then (s.heartbeat_count + 1) % 2 ^ 16 else s.heartbeat_count } :: post,
          stat_count := (run (table_init ttl_max) evs).stat_count }) := by
  have general : ∀ (t : Table) (addr hops : Nat) (pre post : List Stat) (s : Stat),
      t.stats = pre ++ s :: post → (∀ x ∈ pre, x.addr ≠ 0 ∧ x.addr ≠ addr) →
      s.addr ≠ 0 → s.addr = addr →
      (add_heartbeat addr hops t).1 =
        { stats := pre ++
            { s with
                min_hops := if hops < s.min_hops then hops else s.min_hops,
                max_hops := if hops < s.min_hops then s.max_hops
                  else if hops > s.max_hops then hops else s.max_hops,
                heartbeat_count := if s.heartbeat_count < 0xffff
                  then (s.heartbeat_count + 1) % 2 ^ 16 else s.heartbeat_count } :: post,
          stat_count := t.stat_count } := by
    intro t addr hops pre post s hsplit hpre hocc hmatch
    simp only [add_heartbeat, hsplit,
      add_heartbeat_loop_match addr hops pre post s hpre hocc hmatch 0]
  refine ⟨general, ?_⟩
  intro ttl_max evs addr hops pre post s hsplit hocc hmatch
  obtain ⟨hpre, _, _⟩ := reached_scan_match ttl_max evs pre post s hsplit hocc
  exact general _ addr hops pre post s hsplit (hmatch ▸ hpre) hocc hmatch

/-- C14 at a concrete input: the peer 9 inserted by a heartbeat of 4 hops has
bounds `(4, 4)`; a heartbeat of 2 hops lowers the minimum only, one of 6 hops
raises the maximum only, and one of 4 hops moves neither. -/
theorem add_heartbeat_widens_witness :
    (((add_heartbeat 9 2 (run (table_init 127) [.heartbeat 9 4])).1.stats.getD 0 default).min_hops,
      ((add_heartbeat 9 2 (run (table_init 127) [.heartbeat 9 4])).1.stats.getD 0
        default).max_hops) = (2, 4)
    ∧ (((add_heartbeat 9 6 (run (table_init 127) [.heartbeat 9 4])).1.stats.getD 0
          default).min_hops,
        ((add_heartbeat 9 6 (run (table_init 127) [.heartbeat 9 4])).1.stats.getD 0
          default).max_hops) = (4, 6) := by
  have h2 := add_heartbeat_widens.2 127 [.heartbeat 9 4] 9 2 []
    (List.replicate (STAT_COUNT - 1) (stat_init 127))
    { stat_init 127 with addr := 9, heartbeat_count := 1, min_hops := 4, max_hops := 4 }
    (by decide) (by decide) rfl
  have h6 := add_heartbeat_widens.2 127 [.heartbeat 9 4] 9 6 []
    (List.replicate (STAT_COUNT - 1) (stat_init 127))
    { stat_init 127 with addr := 9, heartbeat_count := 1, min_hops := 4, max_hops := 4 }
    (by decide) (by decide) rfl
  exact ⟨by rw [h2]; rfl, by rw [h6]; rfl⟩

theorem see_all_mono (seen : List Nat) (evs : List Event) (a : Nat) (ha : a ∈ seen) :
    a ∈ see_all seen evs := by
  induction evs generalizing seen with
  | nil => exact ha
  | cons e evs ih =>
    apply ih (see seen e.addr)
    unfold see
    split_ifs
    · exact ha
    · exact List.mem_append_left _ ha

theorem shape_occupied_index (t : Table) (seen : List Nat) (h : Shape t seen) (i : Nat)
    (si : Stat) (hi : t.stats[i]? = some si) (hocc : si.addr ≠ 0) :
    seen[i]? = some si.addr := by
  obtain ⟨hmap, _, _, _⟩ := h
  have hi2 : (seen ++ List.replicate (STAT_COUNT - seen.length) 0)[i]? = some si.addr := by
    rw [← hmap, List.getElem?_map, hi]; rfl
  by_cases hlt : i < seen.length
  · rwa [List.getElem?_append_left hlt] at hi2
  · rw [List.getElem?_append_right (by omega), List.getElem?_replicate] at hi2
    split_ifs at hi2
    exact absurd (Option.some.inj hi2).symm hocc

/-- C15: in every table reached from the initial table by any sequence of
`add_hello` / `add_heartbeat` calls, two occupied slots with the same address
are the same slot; and a non-zero address whose call found an empty slot in
the table is held by exactly one slot from then on. -/
theorem one_slot_per_address (ttl_max : Nat) (evs : List Event) :
    (∀ (i j : Nat) (si sj : Stat),
      (run (table_init ttl_max) evs).stats[i]? = some si →
      (run (table_init ttl_max) evs).stats[j]? = some sj →
      si.addr ≠ 0 → si.addr = sj.addr → i = j)
    ∧ (∀ (evs1 evs2 : List Event) (e : Event), evs = evs1 ++ e :: evs2 → e.addr ≠ 0 →
      (∃ x ∈ (run (table_init ttl_max) evs1).stats, x.addr = 0) →
      ((run (table_init ttl_max) evs).stats.map Stat.addr).count e.addr = 1) := by
  have hshape := shape_run (table_init ttl_max) [] evs (shape_init ttl_max)
  constructor
  · intro i j si sj hi hj hocc heq
    have h1 := shape_occupied_index _ _ hshape i si hi hocc
    have h2 := shape_occupied_index _ _ hshape j sj hj (heq ▸ hocc)
    obtain ⟨hi1, hi2⟩ := List.getElem?_eq_some.mp h1
    obtain ⟨hj1, hj2⟩ := List.getElem?_eq_some.mp h2
    exact (hshape.2.2.1.getElem_inj_iff).mp (by rw [hi2, hj2, heq])
  · intro evs1 evs2 e hevs hne ⟨x, hx, hx0⟩
    have hshape1 := shape_run (table_init ttl_max) [] evs1 (shape_init ttl_max)
    have hroom : (see_all [] evs1).length < STAT_COUNT := by
      by_contra hfull
      have hz : STAT_COUNT - (see_all [] evs1).length = 0 := by omega
      have hmap := hshape1.1
      rw [hz] at hmap
      simp only [List.replicate_zero, List.append_nil] at hmap
      have hmem : x.addr ∈ see_all [] evs1 := by
        rw [← hmap]; exact List.mem_map_of_mem _ hx
      exact hshape1.2.2.2 (hx0 ▸ hmem)
    have hsee : e.addr ∈ see (see_all [] evs1) e.addr := by
      unfold see
      split_ifs with hc
      · rcases hc with h | h | h
        · exact absurd h hne
        · exact h
        · omega
      · simp
    have hall : see_all [] evs = see_all (see (see_all [] evs1) e.addr) evs2 := by
      rw [hevs]; simp [see_all, List.foldl_append]
    have hmem : e.addr ∈ see_all [] evs := by
      rw [hall]; exact see_all_mono _ _ _ hsee
    rw [hshape.1, List.count_append, List.count_eq_one_of_mem hshape.2.2.1 hmem,
      List.count_eq_zero_of_not_mem]
    intro hz
    exact hne (List.mem_replicate.mp hz).2

/-- C15 at a concrete input: after hello 7, heartbeat 9, hello 7 the slots 0
and 1 hold the addresses 7 and 9, and address 9 is held by exactly one
slot. -/
theorem one_slot_per_address_witness :
    ((run (table_init 127) [.hello 7 (bytes "A"), .heartbeat 9 2, .hello 7 (bytes "B")]).stats.map
      Stat.addr).count 9 = 1 :=
  (one_slot_per_address 127 [.hello 7 (bytes "A"), .heartbeat 9 2, .hello 7 (bytes "B")]).2
    [.hello 7 (bytes "A")] [.hello 7 (bytes "B")] (.heartbeat 9 2) rfl (by decide)
    ⟨stat_init 127, by decide, rfl⟩

theorem cstr_ne_zero (l : List Nat) : ∀ c ∈ cstr l, c ≠ 0 := by
  intro c hc
  have h := List.mem_takeWhile_imp hc
  simpa using h

theorem cstr_of_no_nul (l : List Nat) (h : ∀ c ∈ l, c ≠ 0) : cstr l = l := by
  unfold cstr
  rw [List.takeWhile_eq_self_iff]
  intro c hc
  simpa using h c hc

theorem cstr_append_nul (a b : List Nat) (ha : ∀ c ∈ a, c ≠ 0) : cstr (a ++ 0 :: b) = a := by
  induction a with
  | nil => simp [cstr]
  | cons x a ih =>
    have hx : x ≠ 0 := ha x (List.mem_cons_self _ _)
    have hrest := ih (fun c hc => ha c (List.mem_cons_of_mem _ hc))
    unfold cstr at hrest ⊢
    simp [List.takeWhile_cons, hx, hrest]

theorem strncpy_drop (dst src : List Nat) : (strncpy dst src 8).drop 8 = dst.drop 8 := by
  unfold strncpy
  have hlen : ((cstr src).take 8 ++ List.replicate (8 - (cstr src).length) 0).length = 8 := by
    simp; omega
  exact List.drop_left' hlen

theorem cstr_strncpy (dst src : List Nat) (hdst : dst.drop 8 = [0]) :
    cstr (strncpy dst src 8) = (cstr src).take 8 := by
  unfold strncpy
  rw [hdst]
  have hne : ∀ c ∈ (cstr src).take 8, c ≠ 0 :=
    fun c hc => cstr_ne_zero src c (List.mem_of_mem_take hc)
  cases hk : 8 - (cstr src).length with
  | zero =>
    simp only [List.replicate_zero, List.append_nil]
    exact cstr_append_nul _ [] hne
  | succ k =>
    rw [List.replicate_succ, List.append_assoc, List.cons_append]
    exact cstr_append_nul _ _ hne

theorem add_hello_loop_name_ok (a : Nat) (name : List Nat) (l : List Stat) (i c : Nat)
    (hl : ∀ x ∈ l, x.name.drop 8 = [0]) :
    ∀ x ∈ (add_hello_loop a name i c l).1, x.name.drop 8 = [0] := by
  induction l generalizing i with
  | nil => simp [add_hello_loop]
  | cons y l ih =>
    have hy := hl y (List.mem_cons_self _ _)
    have hrest : ∀ x ∈ l, x.name.drop 8 = [0] := fun x hx => hl x (List.mem_cons_of_mem _ hx)
    by_cases h0 : y.addr = 0
    · intro x hx
      simp only [add_hello_loop, if_pos h0, List.mem_cons] at hx
      rcases hx with rfl | hx
      · simp only [strncpy_drop, hy]
      · exact hrest x hx
    · by_cases hm : y.addr = a
      · by_cases hs : y.hello_count < 0xffff <;>
        · intro x hx
          simp only [add_hello_loop, if_neg h0, if_pos hm, hs, if_true, if_false,
            List.mem_cons] at hx
          rcases hx with rfl | hx
          · simp only [strncpy_drop, hy]
          · exact hrest x hx
      · intro x hx
        simp only [add_hello_loop, if_neg h0, if_neg hm, List.mem_cons] at hx
        rcases hx with rfl | hx
        · exact hy
        · exact ih (i + 1) hrest x hx

theorem add_heartbeat_loop_name_ok (a hops : Nat) (l : List Stat) (i c : Nat)
    (hl : ∀ x ∈ l, x.name.drop 8 = [0]) :
    ∀ x ∈ (add_heartbeat_loop a hops i c l).1, x.name.drop 8 = [0] := by
  induction l generalizing i with
  | nil => simp [add_heartbeat_loop]
  | cons y l ih =>
    have hy := hl y (List.mem_cons_self _ _)
    have hrest : ∀ x ∈ l, x.name.drop 8 = [0] := fun x hx => hl x (List.mem_cons_of_mem _ hx)
    by_cases h0 : y.addr = 0
    · intro x hx
      simp only [add_heartbeat_loop, if_pos h0, List.mem_cons] at hx
      rcases hx with rfl | hx
      · exact hy
      · exact hrest x hx
    · by_cases hm : y.addr = a
      · by_cases h1 : hops < y.min_hops <;> by_cases h2 : hops > y.max_hops <;>
          by_cases hs : y.heartbeat_count < 0xffff <;>
        · intro x hx
          simp only [add_heartbeat_loop, if_neg h0, if_pos hm, h1, h2, hs, if_true, if_false,
            List.mem_cons] at hx
          rcases hx with rfl | hx
          · exact hy
          · exact hrest x hx
      · intro x hx
        simp only [add_heartbeat_loop, if_neg h0, if_neg hm, List.mem_cons] at hx
        rcases hx with rfl | hx
        · exact hy
        · exact ih (i + 1) hrest x hx

theorem name_ok_run (ttl_max : Nat) (evs : List Event) :
    ∀ x ∈ (run (table_init ttl_max) evs).stats, x.name.drop 8 = [0] := by
  have general : ∀ (t : Table), (∀ x ∈ t.stats, x.name.drop 8 = [0]) →
      ∀ x ∈ (run t evs).stats, x.name.drop 8 = [0] := by
    induction evs with
    | nil => exact fun t ht => ht
    | cons e evs ih =>
      intro t ht
      apply ih (step t e)
      cases e with
      | hello a n => exact add_hello_loop_name_ok a n t.stats 0 t.stat_count ht
      | heartbeat a h => exact add_heartbeat_loop_name_ok a h t.stats 0 t.stat_count ht
  apply general
  intro x hx
  simp only [table_init, List.mem_replicate] at hx
  rw [hx.2]
  rfl

theorem add_hello_name_at (t : Table) (addr : Nat) (name : List Nat) (pre post : List Stat)
    (s : Stat) (hsplit : t.stats = pre ++ s :: post)
    (hpre : ∀ x ∈ pre, x.addr ≠ 0 ∧ x.addr ≠ addr) (haddr : addr ≠ 0)
    (hslot : s.addr = addr ∨ s.addr = 0) :
    ∃ s2 : Stat, (add_hello addr name t).1.stats = pre ++ s2 :: post
      ∧ s2.addr = addr ∧ s2.name = strncpy s.name name 8 := by
  rcases hslot with hm | he
  · have hocc : s.addr ≠ 0 := hm ▸ haddr
    refine ⟨{ s with name := strncpy s.name name 8,
                     hello_count := if s.hello_count < 0xffff
                       then (s.hello_count + 1) % 2 ^ 16 else s.hello_count }, ?_, hm, rfl⟩
    simp only [add_hello, hsplit, add_hello_loop_match addr name pre post s hpre hocc hm 0]
  · refine ⟨{ s with addr := addr, name := strncpy s.name name 8, hello_count := 1 },
      ?_, rfl, rfl⟩
    simp only [add_hello, hsplit, add_hello_loop_empty addr name pre post s hpre he 0]

/-- C16: when the scan of `add_hello addr name` for a non-zero `addr` stops at
the slot `s` of that peer or at the first empty slot `s`, the name stored in
that slot afterwards is, as a string, the first `min 8 (length name)`
characters of the string `name` whatever the slot held before, also when
`hello_count` is saturated and the call returns `NO_UPDATE`.  In a table
reached from the initial table by any calls, after `add_hello addr name`
every slot of address `addr` stores that name. -/
theorem name_last_write_wins :
    (∀ (t : Table) (addr : Nat) (name : List Nat) (pre post : List Stat) (s : Stat),
      t.stats = pre ++ s :: post → (∀ x ∈ pre, x.addr ≠ 0 ∧ x.addr ≠ addr) → addr ≠ 0 →
      (s.addr = addr ∨ s.addr = 0) → s.name.drop 8 = [0] →
      ((add_hello addr name t).1.stats.getD pre.length default).addr = addr
      ∧ cstr ((add_hello addr name t).1.stats.getD pre.length default).name
          = (cstr name).take 8
      ∧ ((cstr name).take 8).length = min 8 (cstr name).length
      ∧ ((∀ c ∈ name, c ≠ 0) → cstr name = name)
      ∧ (s.addr = addr → 65535 ≤ s.hello_count → (add_hello addr name t).2 = NO_UPDATE))
    ∧ (∀ (ttl_max : Nat) (evs : List Event) (addr : Nat) (name : List Nat), addr ≠ 0 →
      ∀ x ∈ (add_hello addr name (run (table_init ttl_max) evs)).1.stats,
        x.addr = addr → cstr x.name = (cstr name).take 8) := by
  constructor
  · intro t addr name pre post s hsplit hpre haddr hslot hname
    obtain ⟨s2, hres, ha2, hn2⟩ := add_hello_name_at t addr name pre post s hsplit hpre haddr hslot
    rw [hres, getD_split]
    refine ⟨ha2, ?_, List.length_take _ _, cstr_of_no_nul name, ?_⟩
    · rw [hn2]; exact cstr_strncpy s.name name hname
    · intro hm hsat
      have hocc : s.addr ≠ 0 := hm ▸ haddr
      have hns : ¬ s.hello_count < 0xffff := by omega
      simp only [add_hello, hsplit, add_hello_loop_match addr name pre post s hpre hocc hm 0,
        if_neg hns]
  · intro ttl_max evs addr name haddr x hx hxa
    have hshape := shape_run (table_init ttl_max) [] evs (shape_init ttl_max)
    have hnames := name_ok_run ttl_max evs
    have hcase : ∀ (pre post : List Stat) (s : Stat),
        (run (table_init ttl_max) evs).stats = pre ++ s :: post →
        (∀ y ∈ pre, y.addr ≠ 0 ∧ y.addr ≠ addr) → (s.addr = addr ∨ s.addr = 0) →
        (∀ y ∈ post, y.addr ≠ addr) → cstr x.name = (cstr name).take 8 := by
      intro pre post s hsplit hpre hslot hpost
      obtain ⟨s2, hres, _, hn2⟩ :=
        add_hello_name_at _ addr name pre post s hsplit hpre haddr hslot
      rw [hres] at hx
      rcases List.mem_append.mp hx with hx | hx
      · exact absurd hxa (hpre x hx).2
      · rcases List.mem_cons.mp hx with rfl | hx
        · rw [hn2]
          exact cstr_strncpy s.name name (hnames s (by rw [hsplit]; simp))
        · exact absurd hxa (hpost x hx)
    by_cases hmem : addr ∈ see_all [] evs
    · obtain ⟨pre, s, post, hsplit, hs, hpre, hpost⟩ := shape_find _ _ addr hshape hmem
      exact hcase pre post s hsplit hpre (Or.inl hs) hpost
    · by_cases hroom : (see_all [] evs).length < STAT_COUNT
      · obtain ⟨pre, s, post, hsplit, hs, hpre, hpost⟩ := shape_room _ _ addr hshape hmem hroom
        exact hcase pre post s hsplit hpre (Or.inr hs)
          (fun y hy h => haddr (h.symm.trans (hpost y hy)))
      · have hall := shape_full _ _ addr hshape hmem (by omega)
        simp only [add_hello, add_hello_loop_none addr name _ hall 0] at hx
        exact absurd hxa (hall x hx).2

/-- C16 at a concrete input: peer 7 first announces the 10 character name
"LONGERNAME" and then "AB"; the slot then stores the string "AB". -/
theorem name_last_write_wins_witness :
    ∀ x ∈ (add_hello 7 (bytes "AB")
        (run (table_init 127) [.hello 7 (bytes "LONGERNAME")])).1.stats,
      x.addr = 7 → cstr x.name = bytes "AB" :=
  name_last_write_wins.2 127 [.hello 7 (bytes "LONGERNAME")] 7 (bytes "AB") (by decide)

/-! ## C17: one text line -/

theorem printed_append (a b : List Cfb) : printed (a ++ b) = printed a ++ printed b := by
  induction a with
  | nil => rfl
  | cons x a ih => cases x <;> simp [printed, ih]

theorem printed_print_line (env : DisplayEnv) (font : font_size) (row : Int) (text : List Nat)
    (len : Nat) (center : Bool) :
    printed (print_line env font row text len center).1
      = [(cstr (text.take (min len (fonts_columns font))),
          ((env.cfb_get_font_size font).1 : Int)
            * (if center then
                (((fonts_columns font - min len (fonts_columns font)) / 2 : Nat) : Int)
               else 0),
          ((env.cfb_get_font_size font).2 : Int) * row)] := by
  unfold print_line
  simp only []
  split_ifs <;> rfl

/-- C17: for every font (column width `C`), row, string `text`, length `len`
and glyph size `(w, h)`, `print_line` makes exactly one `cfb_print` call, with
the first `min len C` characters of `text`, at `x = w * ((C - min len C) / 2)`
when `center` is set and `x = 0` otherwise, and `y = h * row`; it returns
`min len C`, whether or not `cfb_print` reports an error. -/
theorem print_line_draws (env : DisplayEnv) (font : font_size) (row : Int) (text : List Nat)
    (len : Nat) (center : Bool) (htext : ∀ c ∈ text, c ≠ 0) :
    printed (print_line env font row text len center).1
      = [(text.take (min len (fonts_columns font)),
          if center then
            ((env.cfb_get_font_size font).1 : Int)
              * (((fonts_columns font - min len (fonts_columns font)) / 2 : Nat) : Int)
          else 0,
          ((env.cfb_get_font_size font).2 : Int) * row)]
    ∧ (print_line env font row text len center).2 = min len (fonts_columns font)
    ∧ (env.cfb_print (text.take (min len (fonts_columns font)))
          (if center then
            ((env.cfb_get_font_size font).1 : Int)
              * (((fonts_columns font - min len (fonts_columns font)) / 2 : Nat) : Int)
          else 0)
          (((env.cfb_get_font_size font).2 : Int) * row) = true →
        Cfb.printk_print_failed ∈ (print_line env font row text len center).1
        ∧ (print_line env font row text len center).2 = min len (fonts_columns font)) := by
  have hc : cstr (text.take (min len (fonts_columns font)))
      = text.take (min len (fonts_columns font)) :=
    cstr_of_no_nul _ (fun c hc => htext c (List.mem_of_mem_take hc))
  refine ⟨?_, rfl, ?_⟩
  · rw [printed_print_line, hc]
    cases center <;> simp
  · intro hfail
    refine ⟨?_, rfl⟩
    unfold print_line
    simp only [hc]
    cases center
    · simp only [Bool.false_eq_true, if_false, mul_zero] at hfail ⊢
      rw [if_pos hfail]
      simp
    · simp only [if_true] at hfail ⊢
      rw [if_pos hfail]
      simp

/-- C17 at a concrete input: "HELLO WORLD FOO" cut to 5 characters, centred
in the big font (12 columns, glyphs of 8 by 16 pixels) on row 2, is drawn as
"HELLO" at `x = 8 * 3`, `y = 16 * 2`, and 5 is returned. -/
theorem print_line_draws_witness :
    printed (print_line env_example .FONT_BIG 2 (bytes "HELLO WORLD FOO") 5 true).1
      = [(bytes "HELLO", 24, 32)]
    ∧ (print_line env_example .FONT_BIG 2 (bytes "HELLO WORLD FOO") 5 true).2 = 5 :=
  ⟨(print_line_draws env_example .FONT_BIG 2 (bytes "HELLO WORLD FOO") 5 true (by decide)).1,
    (print_line_draws env_example .FONT_BIG 2 (bytes "HELLO WORLD FOO") 5 true (by decide)).2.1⟩

/-! ## C12: which redraws are rescheduled -/

theorem printed_sensor_line (env : DisplayEnv) (line : Nat) (f : Format) :
    (printed (sensor_line env line f)).length = 1 := by
  unfold sensor_line
  rw [printed_print_line]
  rfl

theorem board_show_text_forever (env : DisplayEnv) (text : List Nat) (center : Bool)
    (b : Board) : (board_show_text env text center .K_FOREVER b).1 = b := by
  simp [board_show_text]

theorem finalize_not_in_sensor_line (env : DisplayEnv) (line : Nat) (f : Format) :
    Cfb.framebuffer_finalize ∉ sensor_line env line f := by
  unfold sensor_line print_line
  simp only []
  split_ifs <;> simp

/-- C12: `epd_update` submits `epd_work` again exactly when the screen is
Sensors and the three sensor readers succeed, and then with `K_SECONDS(2)`; in
every other case (Stats, Main, another id, or a failed reader) the board
state is left as it was.  On Sensors the number of lines drawn is 0 when the
first reader fails, 2 when the second one fails, 5 when the third one fails
and 7 when none fails, so nothing is drawn after a failing sample, and the
frame buffer is finalized only when none fails. -/
theorem redraw_rescheduling (env : DisplayEnv) (t : Table) (b : Board) :
    (epd_update env t b).1
      = (if b.screen_id = SCREEN_SENSORS ∧ env.get_hdc1010_val.isSome = true
            ∧ env.get_mma8652_val.isSome = true ∧ env.get_apds9960_val.isSome = true
          then { b with epd_work := some (.K_SECONDS 2) } else b)
    ∧ (b.screen_id = SCREEN_SENSORS →
        (printed (epd_update env t b).2).length
          = (if env.get_hdc1010_val.isSome = true then
              (if env.get_mma8652_val.isSome = true then
                (if env.get_apds9960_val.isSome = true then 7 else 5)
               else 2)
             else 0)
        ∧ ((env.get_hdc1010_val.isSome = true ∧ env.get_mma8652_val.isSome = true
              ∧ env.get_apds9960_val.isSome = true)
            ↔ Cfb.framebuffer_finalize ∈ (epd_update env t b).2)) := by
  have hne : SCREEN_SENSORS ≠ SCREEN_STATS := by decide
  have e1 : printed [Cfb.framebuffer_clear] = [] := rfl
  have e2 : printed [Cfb.printk_sensor_failed] = [] := rfl
  have e3 : printed [Cfb.framebuffer_finalize] = [] := rfl
  have e4 : printed [Cfb.framebuffer_clear, Cfb.printk_sensor_failed] = [] := rfl
  have hsens : b.screen_id = SCREEN_SENSORS →
      epd_update env t b = show_sensors_data env (.K_SECONDS 2) b := by
    intro h1
    have h2 : b.screen_id ≠ SCREEN_STATS := fun h => hne (h1.symm.trans h)
    unfold epd_update
    rw [if_neg h2, if_pos h1]
  constructor
  · by_cases h1 : b.screen_id = SCREEN_SENSORS
    · rw [hsens h1]
      unfold show_sensors_data
      rcases hh : env.get_hdc1010_val with _ | ⟨t0, t1⟩
      · simp
      · rcases hm : env.get_mma8652_val with _ | ⟨a0, a1, a2⟩
        · simp
        · rcases hp : env.get_apds9960_val with _ | ⟨p0, p1⟩
          · simp
          · simp [h1]
    · rw [if_neg (fun h => h1 h.1)]
      unfold epd_update
      split_ifs
      · rfl
      · unfold show_main
        exact board_show_text_forever env _ true b
      · rfl
  · intro h1
    rw [hsens h1]
    unfold show_sensors_data
    rcases hh : env.get_hdc1010_val with _ | ⟨t0, t1⟩
    · simp only [e4, Option.isSome_none, Bool.false_eq_true, if_false, false_and,
        List.length_nil, true_and]
      simp
    · rcases hm : env.get_mma8652_val with _ | ⟨a0, a1, a2⟩
      · simp only [printed_append, List.length_append, printed_sensor_line, e1, e2,
          Option.isSome_some, Option.isSome_none, Bool.false_eq_true, if_true, if_false,
          List.length_nil, false_and, and_false, true_and, false_iff, List.mem_append,
          List.mem_singleton, not_or]
        simp [finalize_not_in_sensor_line]
      · rcases hp : env.get_apds9960_val with _ | ⟨p0, p1⟩
        · simp only [printed_append, List.length_append, printed_sensor_line, e1, e2,
            Option.isSome_some, Option.isSome_none, Bool.false_eq_true, if_true, if_false,
            List.length_nil, false_and, and_false, true_and, false_iff, List.mem_append,
            List.mem_singleton, not_or]
          simp [finalize_not_in_sensor_line]
        · simp only [printed_append, List.length_append, printed_sensor_line, e1, e3,
            Option.isSome_some, if_true, List.length_nil, and_self, true_iff]
          exact ⟨trivial, List.mem_append_right _ (List.mem_singleton.mpr rfl)⟩

/-- C12 at a concrete input: on Sensors with three readable sensors the
redraw is submitted again with `K_SECONDS(2)` and 7 lines are drawn. -/
theorem redraw_rescheduling_witness :
    (epd_update env_example (table_init 127)
        { board_start with screen_id := SCREEN_SENSORS }).1.epd_work = some (.K_SECONDS 2)
    ∧ (printed (epd_update env_example (table_init 127)
        { board_start with screen_id := SCREEN_SENSORS }).2).length = 7 := by
  have h := redraw_rescheduling env_example (table_init 127)
    { board_start with screen_id := SCREEN_SENSORS }
  exact ⟨by rw [h.1]; rfl, (h.2 rfl).1⟩

/-! ## C18, C19: wrapping a text over three lines -/

theorem getD_drop (text : List Nat) (o j : Nat) :
    (text.drop o).getD j 0 = text.getD (o + j) 0 := by
  simp [List.getD_eq_getElem?_getD, List.getElem?_drop]

theorem skip_count_spec (l : List Nat) :
    (∀ j, j < skip_count l → l.getD j 0 = 32 ∨ l.getD j 0 = 10)
    ∧ ¬ (l.getD (skip_count l) 0 = 32 ∨ l.getD (skip_count l) 0 = 10) := by
  induction l with
  | nil => simp [skip_count]
  | cons c rest ih =>
    by_cases hc : c = 32 ∨ c = 10
    · simp only [skip_count, if_pos hc]
      refine ⟨fun j hj => ?_, ?_⟩
      · cases j with
        | zero => simpa using hc
        | succ j => simpa using ih.1 j (by omega)
      · simpa using ih.2
    · simp only [skip_count, if_neg hc]
      exact ⟨fun j hj => by omega, by simpa using hc⟩

theorem cstr_blank (l : List Nat) (hend : l.getD (skip_count l) 0 = 0) :
    ∀ c ∈ cstr l, c = 32 ∨ c = 10 := by
  induction l with
  | nil => simp [cstr]
  | cons x rest ih =>
    by_cases hx : x = 32 ∨ x = 10
    · have hx0 : x ≠ 0 := by rcases hx with h | h <;> omega
      simp only [skip_count, if_pos hx, List.getD_cons_succ] at hend
      intro c hc
      simp only [cstr, List.takeWhile_cons, bne_iff_ne, ne_eq, hx0, not_false_eq_true,
        decide_True, if_true, List.mem_cons] at hc
      rcases hc with rfl | hc
      · exact hx
      · exact ih hend c hc
    · simp only [skip_count, if_neg hx, List.getD_cons_zero] at hend
      subst hend
      simp [cstr]

theorem cstr_drop_nil (text : List Nat) (o : Nat) (h : text.getD o 0 = 0) :
    cstr (text.drop o) = [] := by
  rw [← Nat.add_zero o, ← getD_drop] at h
  cases hd : text.drop o with
  | nil => rfl
  | cons x rest =>
    rw [hd] at h
    simp only [List.getD_cons_zero] at h
    simp [cstr, h]

theorem get_len_loop_cases (cols : Nat) (l : List Nat) (fuel i : Nat) (space : Option Nat)
    (hfuel : i + fuel = cols + 1)
    (hbefore : ∀ j, j < i → ¬ (l.getD j 0 = 10 ∨ l.getD j 0 = 0))
    (hspace : ∀ s, space = some s → s < i ∧ l.getD s 0 = 32) :
    get_len_loop cols l fuel i space ≤ cols
    ∧ (∀ j, j < get_len_loop cols l fuel i space → ¬ (l.getD j 0 = 10 ∨ l.getD j 0 = 0))
    ∧ ((l.getD (get_len_loop cols l fuel i space) 0 = 10
          ∨ l.getD (get_len_loop cols l fuel i space) 0 = 0)
        ∨ l.getD (get_len_loop cols l fuel i space) 0 = 32
        ∨ get_len_loop cols l fuel i space = cols) := by
  induction fuel generalizing i space with
  | zero =>
    cases space with
    | none =>
      have e : get_len_loop cols l 0 i none = cols := rfl
      rw [e]
      exact ⟨le_refl _, fun j hj => hbefore j (by omega), Or.inr (Or.inr rfl)⟩
    | some s =>
      obtain ⟨hs, hs32⟩ := hspace s rfl
      have e : get_len_loop cols l 0 i (some s) = s := rfl
      rw [e]
      exact ⟨by omega, fun j hj => hbefore j (by omega), Or.inr (Or.inl hs32)⟩
  | succ fuel ih =>
    rw [get_len_loop]
    by_cases hterm : l.getD i 0 = 10 ∨ l.getD i 0 = 0
    · rw [if_pos hterm]
      exact ⟨by omega, hbefore, Or.inl hterm⟩
    · rw [if_neg hterm]
      have hb : ∀ j, j < i + 1 → ¬ (l.getD j 0 = 10 ∨ l.getD j 0 = 0) := by
        intro j hj
        by_cases hji : j = i
        · rw [hji]; exact hterm
        · exact hbefore j (by omega)
      by_cases hsp : l.getD i 0 = 32
      · rw [if_pos hsp]
        exact ih (i + 1) (some i) (by omega) hb
          (fun s hs => by
            have hsi : i = s := Option.some.inj hs
            subst hsi
            exact ⟨by omega, hsp⟩)
      · rw [if_neg hsp]
        exact ih (i + 1) space (by omega) hb
          (fun s hs => ⟨by have := (hspace s hs).1; omega, (hspace s hs).2⟩)

theorem get_len_big (l : List Nat) (hstart : ¬ (l.getD 0 0 = 32 ∨ l.getD 0 0 = 10)) :
    get_len .FONT_BIG l ≤ 12
    ∧ (∀ j, j < get_len .FONT_BIG l → ¬ (l.getD j 0 = 10 ∨ l.getD j 0 = 0))
    ∧ (get_len .FONT_BIG l = 0 → l.getD 0 0 = 0) := by
  have h := get_len_loop_cases 12 l 13 0 none rfl (fun j hj => by omega)
    (fun s hs => by cases hs)
  have e : get_len .FONT_BIG l = get_len_loop 12 l 13 0 none := rfl
  rw [e]
  refine ⟨h.1, h.2.1, fun h0 => ?_⟩
  have h3 := h.2.2
  rw [h0] at h3
  rcases h3 with (h10 | hz) | h32 | h12
  · exact absurd (Or.inr h10) hstart
  · exact hz
  · exact absurd (Or.inl h32) hstart
  · omega

theorem show_text_loop_step (env : DisplayEnv) (center : Bool) (text : List Nat)
    (fuel i off : Nat)
    (hlen : get_len .FONT_BIG (text.drop (off + skip_count (text.drop off))) ≤ 12) :
    board_show_text_loop env center text (fuel + 1) i off
      = if get_len .FONT_BIG (text.drop (off + skip_count (text.drop off))) = 0 then []
        else
          { row := i, off := off + skip_count (text.drop off),
            len := get_len .FONT_BIG (text.drop (off + skip_count (text.drop off))) } ::
          (if text.getD (off + skip_count (text.drop off)
                + get_len .FONT_BIG (text.drop (off + skip_count (text.drop off)))) 0 = 0
           then []
           else board_show_text_loop env center text fuel (i + 1)
             (off + skip_count (text.drop off)
                + get_len .FONT_BIG (text.drop (off + skip_count (text.drop off))))) := by
  have hmin : min (get_len .FONT_BIG (text.drop (off + skip_count (text.drop off))))
      (fonts_columns .FONT_BIG)
      = get_len .FONT_BIG (text.drop (off + skip_count (text.drop off))) :=
    Nat.min_eq_left hlen
  simp only [board_show_text_loop, print_line, hmin]

theorem show_text_loop_wrapped (env : DisplayEnv) (center : Bool) (text : List Nat)
    (fuel i off : Nat) :
    Wrapped text off (board_show_text_loop env center text fuel i off)
    ∧ (board_show_text_loop env center text fuel i off).length ≤ fuel
    ∧ (board_show_text_loop env center text fuel i off).map LineCall.row
        = List.range' i (board_show_text_loop env center text fuel i off).length
    ∧ ((board_show_text_loop env center text fuel i off).length < fuel →
        ∀ c ∈ cstr (text.drop
          (line_end off (board_show_text_loop env center text fuel i off))),
          c = 32 ∨ c = 10) := by
  induction fuel generalizing i off with
  | zero =>
    simp only [board_show_text_loop, Wrapped, List.length_nil, List.map_nil, List.range'_zero,
      le_refl, lt_self_iff_false, true_and, false_implies, and_self]
  | succ fuel ih =>
    have hskip := skip_count_spec (text.drop off)
    simp only [getD_drop] at hskip
    have hstart : ¬ ((text.drop (off + skip_count (text.drop off))).getD 0 0 = 32
        ∨ (text.drop (off + skip_count (text.drop off))).getD 0 0 = 10) := by
      simp only [getD_drop, Nat.add_zero]
      exact hskip.2
    obtain ⟨hle, hno, hzero⟩ := get_len_big _ hstart
    simp only [getD_drop, Nat.add_zero] at hno hzero
    rw [show_text_loop_step env center text fuel i off hle]
    generalize hk : skip_count (text.drop off) = k at *
    generalize hn : get_len .FONT_BIG (text.drop (off + k)) = n at *
    by_cases hn0 : n = 0
    · rw [if_pos hn0]
      refine ⟨trivial, Nat.zero_le _, rfl, fun _ => ?_⟩
      apply cstr_blank
      simp only [line_end]
      rw [hk, getD_drop]
      exact hzero hn0
    · rw [if_neg hn0]
      have hgood : off ≤ off + k
          ∧ (∀ p, off ≤ p → p < off + k → text.getD p 0 = 32 ∨ text.getD p 0 = 10)
          ∧ 1 ≤ n ∧ n ≤ 12
          ∧ ¬ (text.getD (off + k) 0 = 32 ∨ text.getD (off + k) 0 = 10)
          ∧ (∀ j, j < n → ¬ (text.getD (off + k + j) 0 = 10 ∨ text.getD (off + k + j) 0 = 0)) := by
        refine ⟨Nat.le_add_right _ _, ?_, Nat.pos_of_ne_zero hn0, hle, hskip.2, hno⟩
        intro p hp1 hp2
        have := hskip.1 (p - off) (by omega)
        rwa [show off + (p - off) = p by omega] at this
      by_cases hend : text.getD (off + k + n) 0 = 0
      · rw [if_pos hend]
        refine ⟨⟨hgood, trivial⟩, by simp, by simp [List.range'], fun _ => ?_⟩
        simp only [line_end]
        rw [cstr_drop_nil text _ hend]
        intro c hc
        cases hc
      · rw [if_neg hend]
        obtain ⟨h1, h2, h3, h4⟩ := ih (i + 1) (off + k + n)
        refine ⟨⟨hgood, h1⟩, by simp only [List.length_cons]; omega, ?_, fun hlt => ?_⟩
        · simp only [List.map_cons, List.length_cons, h3]
          rfl
        · simp only [line_end]
          apply h4
          simp only [List.length_cons] at hlt
          omega

theorem wrapped_mem (text : List Nat) (e : Nat) (cs : List LineCall) (h : Wrapped text e cs) :
    ∀ c ∈ cs, e ≤ c.off ∧ 1 ≤ c.len ∧ c.len ≤ 12
      ∧ ¬ (text.getD c.off 0 = 32 ∨ text.getD c.off 0 = 10)
      ∧ (∀ j, j < c.len → ¬ (text.getD (c.off + j) 0 = 10 ∨ text.getD (c.off + j) 0 = 0)) := by
  induction cs generalizing e with
  | nil => intro c hc; cases hc
  | cons d rest ih =>
    obtain ⟨⟨h1, _, h3, h4, h5, h6⟩, hrest⟩ := h
    intro c hc
    rcases List.mem_cons.mp hc with rfl | hc
    · exact ⟨h1, h3, h4, h5, h6⟩
    · obtain ⟨g1, g2⟩ := ih (d.off + d.len) hrest c hc
      exact ⟨by omega, g2⟩

theorem wrapped_pairwise (text : List Nat) (e : Nat) (cs : List LineCall)
    (h : Wrapped text e cs) :
    cs.Pairwise (fun c d => c.off < d.off ∧ c.off + c.len ≤ d.off) := by
  induction cs generalizing e with
  | nil => exact List.Pairwise.nil
  | cons d rest ih =>
    obtain ⟨⟨_, _, h3, _, _, _⟩, hrest⟩ := h
    refine List.Pairwise.cons ?_ (ih (d.off + d.len) hrest)
    intro c hc
    have := (wrapped_mem text _ rest hrest c hc).1
    exact ⟨by omega, this⟩

theorem wrapped_cover (text : List Nat) (e : Nat) (cs : List LineCall)
    (h : Wrapped text e cs) :
    ∀ p, e ≤ p → p < line_end e cs →
      (∃ c ∈ cs, c.off ≤ p ∧ p < c.off + c.len)
      ∨ text.getD p 0 = 32 ∨ text.getD p 0 = 10 := by
  induction cs generalizing e with
  | nil =>
    intro p hp1 hp2
    simp only [line_end] at hp2
    omega
  | cons d rest ih =>
    obtain ⟨⟨_, h2, _, _, _, _⟩, hrest⟩ := h
    intro p hp1 hp2
    simp only [line_end] at hp2
    by_cases hlt : p < d.off
    · exact Or.inr (h2 p hp1 hlt)
    · by_cases hin : p < d.off + d.len
      · exact Or.inl ⟨d, List.mem_cons_self _ _, by omega, hin⟩
      · rcases ih (d.off + d.len) hrest p (by omega) hp2 with ⟨c, hc, hc2⟩ | hb
        · exact Or.inl ⟨c, List.mem_cons_of_mem _ hc, hc2⟩
        · exact Or.inr hb

theorem line_getD (text : List Nat) (off len n : Nat) (hn : n < len) :
    ((text.drop off).take len).getD n 0 = text.getD (off + n) 0 := by
  simp [List.getD_eq_getElem?_getD, List.getElem?_take, List.getElem?_drop, hn]

theorem line_content (text : List Nat) (off len : Nat) (hlen : 1 ≤ len)
    (hno : ∀ j, j < len → ¬ (text.getD (off + j) 0 = 10 ∨ text.getD (off + j) 0 = 0)) :
    off + len ≤ text.length
    ∧ ((text.drop off).take len).length = len
    ∧ (∀ ch ∈ (text.drop off).take len, ch ≠ 10 ∧ ch ≠ 0) := by
  have hle : off + len ≤ text.length := by
    by_contra hlt
    by_cases ho : off ≤ text.length
    · have h := hno (text.length - off) (by omega)
      apply h
      right
      rw [show off + (text.length - off) = text.length by omega]
      simp [List.getD_eq_getElem?_getD]
    · have h := hno 0 (by omega)
      apply h
      right
      rw [List.getD_eq_getElem?_getD, List.getElem?_eq_none (by omega)]
      rfl
  have hlength : ((text.drop off).take len).length = len := by
    simp only [List.length_take, List.length_drop]
    omega
  refine ⟨hle, hlength, ?_⟩
  intro ch hch
  obtain ⟨n, hn, hget⟩ := List.mem_iff_getElem.mp hch
  have hn2 : n < len := by omega
  have hd : ((text.drop off).take len).getD n 0 = ch := by
    rw [List.getD_eq_getElem?_getD, List.getElem?_eq_getElem hn, hget]
    rfl
  rw [line_getD text off len n hn2] at hd
  have h := hno n hn2
  rw [hd] at h
  exact ⟨fun h10 => h (Or.inl h10), fun h0 => h (Or.inr h0)⟩

theorem printed_show_text (env : DisplayEnv) (text : List Nat) (center : Bool)
    (duration : Timeout) (b : Board)
    (h : Wrapped text 0 (board_show_text_calls env center text)) :
    (printed (board_show_text env text center duration b).2).map (fun d => d.1)
      = (board_show_text_calls env center text).map (fun c => (text.drop c.off).take c.len)
    ∧ (printed (board_show_text env text center duration b).2).map (fun d => d.2.2)
      = (board_show_text_calls env center text).map
          (fun c => ((env.cfb_get_font_size .FONT_BIG).2 : Int) * (c.row : Int)) := by
  have hmem := wrapped_mem text 0 _ h
  have e1 : printed [Cfb.framebuffer_clear] = [] := rfl
  have e3 : printed [Cfb.framebuffer_finalize] = [] := rfl
  unfold board_show_text
  simp only [printed_append, e1, e3, List.nil_append, List.append_nil]
  generalize board_show_text_calls env center text = cs at hmem
  induction cs with
  | nil => exact ⟨rfl, rfl⟩
  | cons c rest ih =>
    obtain ⟨_, h1, h12, _, hno⟩ := hmem c (List.mem_cons_self _ _)
    have hrest := ih (fun d hd => hmem d (List.mem_cons_of_mem _ hd))
    have hmin : min c.len (fonts_columns .FONT_BIG) = c.len := Nat.min_eq_left h12
    have hline := (line_content text c.off c.len h1 hno).2.2
    have hc : cstr ((text.drop c.off).take c.len) = (text.drop c.off).take c.len :=
      cstr_of_no_nul _ (fun ch hch => (hline ch hch).2)
    simp only [List.flatMap_cons, printed_append, printed_print_line, hmin, hc, List.map_append,
      List.map_cons, List.map_nil, List.singleton_append, hrest.1, hrest.2]
    exact ⟨trivial, trivial⟩

/-- C18: for every text, `board_show_text` makes at most 3 `print_line`
calls, on the rows 0, 1, 2 in that order; each drawn line is a piece
`text[off .. off + len)` of 1 to 12 characters, drawn at `y = height * row`;
and when fewer than 3 lines are drawn, the string that remains after the last
drawn line consists of spaces and newlines only. -/
theorem show_text_three_lines (env : DisplayEnv) (text : List Nat) (center : Bool)
    (duration : Timeout) (b : Board) :
    (board_show_text_calls env center text).length ≤ 3
    ∧ (board_show_text_calls env center text).map LineCall.row
        = List.range (board_show_text_calls env center text).length
    ∧ (printed (board_show_text env text center duration b).2).map (fun d => d.1)
        = (board_show_text_calls env center text).map (fun c => (text.drop c.off).take c.len)
    ∧ (printed (board_show_text env text center duration b).2).map (fun d => d.2.2)
        = (List.range (board_show_text_calls env center text).length).map
            (fun (r : Nat) => ((env.cfb_get_font_size .FONT_BIG).2 : Int) * (r : Int))
    ∧ (∀ l ∈ (printed (board_show_text env text center duration b).2).map (fun d => d.1),
        1 ≤ l.length ∧ l.length ≤ 12)
    ∧ ((board_show_text_calls env center text).length < 3 →
        ∀ ch ∈ cstr (text.drop (line_end 0 (board_show_text_calls env center text))),
          ch = 32 ∨ ch = 10) := by
  obtain ⟨hw, hlen, hrows, hrest⟩ := show_text_loop_wrapped env center text 3 0 0
  have hpr := printed_show_text env text center duration b hw
  have hrows2 : (board_show_text_calls env center text).map LineCall.row
      = List.range (board_show_text_calls env center text).length := by
    rw [List.range_eq_range']
    exact hrows
  refine ⟨hlen, hrows2, hpr.1, ?_, ?_, hrest⟩
  · rw [hpr.2, ← hrows2, List.map_map]
    rfl
  · rw [hpr.1]
    intro l hl
    obtain ⟨c, hc, rfl⟩ := List.mem_map.mp hl
    obtain ⟨_, h1, h12, _, hno⟩ := wrapped_mem text 0 _ hw c hc
    rw [(line_content text c.off c.len h1 hno).2.1]
    exact ⟨h1, h12⟩

/-- C18 at a concrete input: of "HI", a newline and two spaces only the
line "HI" is drawn, on row 0, and what remains of the string after it, the
newline and the two spaces, holds spaces and newlines only. -/
theorem show_text_three_lines_witness :
    (printed (board_show_text env_example (bytes "HI" ++ [10, 32, 32]) true .K_FOREVER
        board_start).2).map (fun d => d.1) = [bytes "HI"]
    ∧ ∀ ch ∈ cstr ((bytes "HI" ++ [10, 32, 32]).drop
        (line_end 0 (board_show_text_calls env_example true (bytes "HI" ++ [10, 32, 32])))),
        ch = 32 ∨ ch = 10 :=
  ⟨(show_text_three_lines env_example (bytes "HI" ++ [10, 32, 32]) true .K_FOREVER
      board_start).2.2.1.trans (by decide),
    (show_text_three_lines env_example (bytes "HI" ++ [10, 32, 32]) true .K_FOREVER
      board_start).2.2.2.2.2 (by decide)⟩

/-- C19: for every text, the lines drawn by `board_show_text` are the pieces
`text[off .. off + len)` of the text at strictly increasing offsets that do
not overlap; no drawn line holds a newline, and none begins with a space; and
every character of the text before the end of the last drawn line that lies
in no drawn line is a space or a newline. -/
theorem show_text_keeps_characters (env : DisplayEnv) (text : List Nat) (center : Bool)
    (duration : Timeout) (b : Board) :
    (printed (board_show_text env text center duration b).2).map (fun d => d.1)
        = (board_show_text_calls env center text).map (fun c => (text.drop c.off).take c.len)
    ∧ (board_show_text_calls env center text).Pairwise
        (fun c d => c.off < d.off ∧ c.off + c.len ≤ d.off)
    ∧ (∀ c ∈ board_show_text_calls env center text,
        c.off + c.len ≤ text.length
        ∧ ((text.drop c.off).take c.len).length = c.len
        ∧ (∀ ch ∈ (text.drop c.off).take c.len, ch ≠ 10)
        ∧ ((text.drop c.off).take c.len).getD 0 0 ≠ 32)
    ∧ (∀ p, p < line_end 0 (board_show_text_calls env center text) →
        (∃ c ∈ board_show_text_calls env center text, c.off ≤ p ∧ p < c.off + c.len)
        ∨ text.getD p 0 = 32 ∨ text.getD p 0 = 10) := by
  obtain ⟨hw, _, _, _⟩ := show_text_loop_wrapped env center text 3 0 0
  have hpr := printed_show_text env text center duration b hw
  refine ⟨hpr.1, wrapped_pairwise text 0 _ hw, ?_,
    fun p hp => wrapped_cover text 0 _ hw p (Nat.zero_le p) hp⟩
  intro c hc
  obtain ⟨_, h1, _, hstart, hno⟩ := wrapped_mem text 0 _ hw c hc
  obtain ⟨g1, g2, g3⟩ := line_content text c.off c.len h1 hno
  refine ⟨g1, g2, fun ch hch => (g3 ch hch).1, ?_⟩
  rw [line_getD text c.off c.len 0 (by omega), Nat.add_zero]
  exact fun h => hstart (Or.inl h)

/-- C19 at a concrete input: in "HELLO WORLD FOO" the lines "HELLO WORLD" and
"FOO" are drawn, and the character at offset 11, which lies in neither, is
the space between them. -/
theorem show_text_keeps_characters_witness :
    (printed (board_show_text env_example (bytes "HELLO WORLD FOO") true .K_FOREVER
        board_start).2).map (fun d => d.1) = [bytes "HELLO WORLD", bytes "FOO"]
    ∧ ((∃ c ∈ board_show_text_calls env_example true (bytes "HELLO WORLD FOO"),
          c.off ≤ 11 ∧ 11 < c.off + c.len)
        ∨ (bytes "HELLO WORLD FOO").getD 11 0 = 32
        ∨ (bytes "HELLO WORLD FOO").getD 11 0 = 10) :=
  ⟨(show_text_keeps_characters env_example (bytes "HELLO WORLD FOO") true .K_FOREVER
      board_start).1.trans (by decide),
    (show_text_keeps_characters env_example (bytes "HELLO WORLD FOO") true .K_FOREVER
      board_start).2.2.2 11 (by decide)⟩

end MeshBadge
